import Mathlib

/-!
Verification of the BAST FTL translation engine (`src/FTLs/bast_ftl.cpp`)
against its natural-language specification.

The shallow embedding below translates the read/write/trim/merge paths of
`FtlImpl_Bast` into pure Lean functions over an explicit state.  The flash
controller and garbage-collection manager (`controller.*`, `manager.*`,
declared in `ssd.h`, which is not part of the sources) are modelled from the
spec's external-interface contract (§6): page states, free-block allocation,
page invalidation and block erase.  Machine `long`/`int` values that can be
negative (`-1` sentinels, physical linear addresses) are modelled as `Int`;
logical addresses are `Nat`.

Memory model note: `LogPageBlock` objects are heap-allocated in the C++
(`new`/`delete`); we model the heap as `Nat → LogPageBlock` with ids handed
out by a monotone counter, and a deleted object simply keeps its last
contents at its (never reused) id.  This gives a deterministic semantics to
the source's use of a pointer after `dispose_logblock` has `delete`d it.
-/

set_option maxHeartbeats 1000000

namespace Bast

/-- Page states tracked by the flash controller.  Modelled from the spec:
`page_state(PhysicalAddress) -> {VALID, INVALID, FREE}` (§6); `EMPTY` is the
erased/free state, which every page has at start-up. -/
inductive PageState where
  | EMPTY
  | VALID
  | INVALID
deriving DecidableEq, BEq

/-- `LogPageBlock` (bast_ftl.cpp:44-58): the per-logical-block log record.
`pages` has one slot per page offset, holding the physical page offset
inside the owned physical block for that logical offset, or `-1` when unset;
`address` is the linear base address of the owned physical log block.
(`aPages`, `numPages` and `next` are never consulted on the read/write/trim
paths modelled here.) -/
structure LogPageBlock where
  pages : List Int
  address : Int
deriving DecidableEq

/-- Configuration constants (globals from `ssd.h`): `BLOCK_SIZE`, the
derived `addressShift`, and `BAST_LOG_PAGE_LIMIT`. -/
structure Cfg where
  bs : Nat
  shift : Nat
  logLimit : Nat
deriving DecidableEq

/-- The engine state: the FTL's own tables (`data_list`, `log_map`, the
heap of `LogPageBlock` objects) together with the external collaborators'
observable state (per-page flash state, the free-block pool) and the
statistics / simulated-cost counters the code touches. -/
structure BastState where
  /-- `data_list` (bast_ftl.cpp:92): logical block index → linear base
  address of the data block, `-1` when unmapped. -/
  data_list : Nat → Int
  /-- Heap of allocated `LogPageBlock` objects, by id. -/
  heap : Nat → LogPageBlock
  /-- Next fresh heap id (ids are never reused). -/
  nextId : Nat
  /-- `log_map`: logical block index → heap id of its `LogPageBlock`.
  Modelled from the spec: the container type is declared in `ssd.h` (absent
  from the sources); spec §3 specifies a bounded mapping "ordered by
  insertion (first inserted = oldest)", so we use an association list in
  insertion order; `begin()` is the head. -/
  log_map : List (Nat × Nat)
  /-- Controller-tracked state of every physical page, by linear address.
  Modelled from the spec (§6 `page_state`). -/
  pageState : Int → PageState
  /-- Pool of free physical blocks (linear base addresses) handed out by
  `manager.get_free_block`.  Modelled from the spec (§6). -/
  freeBlocks : List Int
  mapReads : Nat
  mapWrites : Nat
  numMemoryRead : Nat
  numFTLRead : Nat
  numFTLWrite : Nat
  numFTLTrim : Nat
  numLogMergeSwitch : Nat
  numLogMergeFull : Nat

/-- Pointwise update of a function, used for the heap, the page-state map
and `data_list`. -/
def updFn {α : Type} (f : Nat → α) (k : Nat) (v : α) : Nat → α :=
  fun x => if x = k then v else f x

/-- Pointwise update of an `Int`-indexed function (page states). -/
def updFnI {α : Type} (f : Int → α) (k : Int) (v : α) : Int → α :=
  fun x => if x = k then v else f x

/-- `controller.get_num_valid(&addr)`: number of VALID pages of the
physical block based at `base`.  Modelled from the spec (§3 `valid_count`
"derived from the physical block's valid-page count"). -/
def get_num_valid (cfg : Cfg) (st : BastState) (base : Int) : Nat :=
  (List.range cfg.bs).countP (fun (o : Nat) => st.pageState (base + (o : Int)) == .VALID)

/-- `controller.get_free_page(addr)`: the next free page of the physical
block based at `base`.  Modelled from the spec (§4.3 "take the next free
physical offset in `physical_block` (monotonic allocation within the
block)"): the first EMPTY page offset. -/
def get_free_page (cfg : Cfg) (st : BastState) (base : Int) : Int :=
  let o : Nat :=
    ((List.range cfg.bs).find? (fun (o : Nat) => st.pageState (base + (o : Int)) == .EMPTY)).getD cfg.bs
  base + o

/-- Issuing a physical write programs the target page.  Modelled from the
spec (§6 `issue`). -/
def issueWrite (st : BastState) (a : Int) : BastState :=
  { st with pageState := updFnI st.pageState a .VALID }

/-- `block->invalidate_page`: mark one physical page INVALID.  Modelled
from the spec (§6). -/
def invalidate_page (st : BastState) (a : Int) : BastState :=
  { st with pageState := updFnI st.pageState a .INVALID }

/-- `block->get_state() == INACTIVE`: every page of the block based at
`base` is INVALID.  Modelled from the spec (§4.7 "all its pages now
invalid"). -/
def blockInactive (cfg : Cfg) (st : BastState) (base : Int) : Bool :=
  (List.range cfg.bs).all (fun (o : Nat) => st.pageState (base + (o : Int)) == .INVALID)

/-- Stamp every page of the block based at `base` with state `ps`. -/
def blockStamp (bs : Nat) (f : Int → PageState) (base : Int) (ps : PageState) :
    Int → PageState :=
  fun x => if (List.range bs).any (fun (o : Nat) => base + (o : Int) = x) then ps else f x

/-- `manager.invalidate(addr, kind)`: the whole block is queued for
reclamation, its pages dead.  Modelled from the spec (§6
`invalidate_block`). -/
def invalidate_block (cfg : Cfg) (st : BastState) (base : Int) : BastState :=
  { st with pageState := blockStamp cfg.bs st.pageState base .INVALID }

/-- `manager.erase_and_invalidate`: the block is erased immediately
(PTRIM), its pages returning to the erased state.  Modelled from the spec
(§4.7 "proactively erase/reclaim it immediately"). -/
def erase_block (cfg : Cfg) (st : BastState) (base : Int) : BastState :=
  { st with pageState := blockStamp cfg.bs st.pageState base .EMPTY }

/-- `manager.get_free_block(kind)`: pop a fresh erased block from the free
pool.  Modelled from the spec (§6 `allocate_free_block`).  The `[]` case is
the allocator's fatal exhaustion, which cannot be reached in the runs we
reason about; it hands out base `0`. -/
def get_free_block (st : BastState) : Int × BastState :=
  match st.freeBlocks with
  | [] => (0, st)
  | b :: t => (b, { st with freeBlocks := t })

/-- `std::map`-style insert-or-assign used by `log_map[lba] = logBlock`
(bast_ftl.cpp:264).  Modelled from the spec (§3 LogMap): a fresh key is
appended, preserving insertion order. -/
def mapInsert (m : List (Nat × Nat)) (k v : Nat) : List (Nat × Nat) :=
  if (List.lookup k m).isSome then
    m.map (fun p => if p.1 = k then (k, v) else p)
  else m ++ [(k, v)]

/-- `dispose_logblock` (bast_ftl.cpp:267-271): erase the map entry and
`delete` the block (the heap keeps its last contents, see the memory-model
note). -/
def dispose_logblock (st : BastState) (lba : Nat) : BastState :=
  { st with log_map := st.log_map.eraseP (fun p => p.1 == lba) }

/-- `is_sequential` (bast_ftl.cpp:273-304).  `id` is the heap id of the
`logBlock` argument. -/
def is_sequential (cfg : Cfg) (st : BastState) (id : Nat) (lba : Nat) :
    Bool × BastState :=
  let pb := st.heap id
  let isSeq := (List.range cfg.bs).all (fun i => pb.pages.getD i (-1) == (i : Int))
  if isSeq then
    -- manager.promote_block(DATA) is wear-leveling bookkeeping with no
    -- observable effect on the state modelled here.
    let st1 := if st.data_list lba != -1 then invalidate_block cfg st (st.data_list lba) else st
    let st2 := { st1 with data_list := updFn st1.data_list lba pb.address }
    let st3 := dispose_logblock st2 lba
    let st4 := { st3 with mapWrites := st3.mapWrites + 1,
                          numLogMergeSwitch := st3.numLogMergeSwitch + 1 }
    (true, st4)
  else
    (false, st)

/-- The source page that one iteration of `random_merge`'s copy loop
(bast_ftl.cpp:331-340) resolves for destination offset `i`, `none` when the
iteration `continue`s before reading.  Note the source's guard tests the
slot of the triggering event's own page offset (`eventAddress.page`), not
the slot of the loop index `i`. -/
def mergeSource (st : BastState) (id lba : Nat) (evOff : Nat) (i : Nat) : Option Int :=
  let pb := st.heap id
  if pb.pages.getD evOff (-1) != -1 then
    some (pb.address + pb.pages.getD i (-1))
  else if st.data_list lba != -1 then
    some (st.data_list lba + i)
  else
    none

/-- The copies (destination offset, source address) actually issued by
`random_merge`'s loop, after the INVALID-page skip (bast_ftl.cpp:342-343). -/
def mergeCopies (cfg : Cfg) (st : BastState) (id lba : Nat) (evOff : Nat) :
    List (Nat × Int) :=
  (List.range cfg.bs).filterMap (fun i =>
    match mergeSource st id lba evOff i with
    | none => none
    | some ra => if st.pageState ra = .INVALID then none else some (i, ra))

/-- One iteration body of `random_merge`'s copy loop (bast_ftl.cpp:345-362):
issue the read/write pair copying source `p.2` to offset `p.1` of the new
data block, and count both I/Os. -/
def mergeCopyStep (newD : Int) (s : BastState) (p : Nat × Int) : BastState :=
  { issueWrite s (newD + p.1) with
      numFTLRead := s.numFTLRead + 1, numFTLWrite := s.numFTLWrite + 1 }

/-- `random_merge` (bast_ftl.cpp:306-383).  `evLaddr` is the logical
address of the request whose handling triggered the merge. -/
def random_merge (cfg : Cfg) (st : BastState) (id lba : Nat) (evLaddr : Nat) :
    BastState :=
  let evOff := evLaddr % cfg.bs
  let (newD, st1) := get_free_block st
  let copies := mergeCopies cfg st1 id lba evOff
  let st2 := copies.foldl (mergeCopyStep newD) st1
  let st3 := invalidate_block cfg st2 (st2.heap id).address
  let st4 := if st3.data_list lba != -1 then invalidate_block cfg st3 (st3.data_list lba) else st3
  let st5 := { st4 with data_list := updFn st4.data_list lba newD }
  let st6 := { st5 with mapWrites := st5.mapWrites + 1 }
  let st7 := dispose_logblock st6 lba
  { st7 with numLogMergeFull := st7.numLogMergeFull + 1 }

/-- The eviction phase of `allocate_new_logblock` (bast_ftl.cpp:251-258):
when the Log Map is at capacity, force `(*log_map.begin())` — the head of
the insertion-ordered map — through the merge decision, which removes it. -/
def evictIfFull (cfg : Cfg) (st : BastState) (evLaddr : Nat) : BastState :=
  if cfg.logLimit ≤ st.log_map.length then
    match st.log_map with
    | [] => st
    | (exLba, exId) :: _ =>
      let p := is_sequential cfg st exId exLba
      if p.1 then p.2 else random_merge cfg p.2 exId exLba evLaddr
  else st

/-- `allocate_new_logblock` (bast_ftl.cpp:249-265): evict-by-merge when at
capacity, then insert a fresh `LogPageBlock` owning a fresh physical
block. -/
def allocate_new_logblock (cfg : Cfg) (st : BastState) (lba : Nat) (evLaddr : Nat) :
    BastState :=
  let st1 := evictIfFull cfg st evLaddr
  let (base, st2) := get_free_block st1
  let newId := st2.nextId
  let pb : LogPageBlock := ⟨List.replicate cfg.bs (-1), base⟩
  { st2 with heap := updFn st2.heap newId pb,
             nextId := newId + 1,
             log_map := mapInsert st2.log_map lba newId }

/-- `FtlImpl_Bast::read` (bast_ftl.cpp:108-144).  Returns the linear
physical address the event is resolved to (`0` is the unmapped sentinel
`Address(0, PAGE)`) together with the updated state. -/
def read (cfg : Cfg) (st : BastState) (laddr : Nat) : Int × BastState :=
  let lookupBlock := laddr >>> cfg.shift
  let off := laddr % cfg.bs
  let st := { st with numMemoryRead := st.numMemoryRead + 1 }
  let r : Int :=
    match List.lookup lookupBlock st.log_map with
    | some id =>
      let pb := st.heap id
      if pb.pages.getD off (-1) != -1 then pb.address + pb.pages.getD off (-1)
      else if st.data_list lookupBlock = -1 then 0
      else st.data_list lookupBlock + off
    | none =>
      if st.data_list lookupBlock = -1 then 0
      else st.data_list lookupBlock + off
  let r := if st.pageState r = .INVALID then 0 else r
  let st := { st with mapReads := st.mapReads + 1, numFTLRead := st.numFTLRead + 1 }
  (r, st)

/-- `FtlImpl_Bast::write` (bast_ftl.cpp:146-190).  Returns the linear
physical address the write is issued to, with the updated state.  The
full-log-block path reproduces the source faithfully: because
`allocate_new_logblock` receives the `logBlock` pointer by value, the
caller's pointer still designates the old, just-disposed `LogPageBlock`, so
the slot update and the issued address at bast_ftl.cpp:178-181 go to the
old object and its physical block, not to the newly mapped one. -/
def write (cfg : Cfg) (st : BastState) (laddr : Nat) : Int × BastState :=
  let lba := laddr >>> cfg.shift
  let off := laddr % cfg.bs
  let st := if (List.lookup lba st.log_map).isNone
            then allocate_new_logblock cfg st lba laddr else st
  let st := { st with numMemoryRead := st.numMemoryRead + 1 }
  match List.lookup lba st.log_map with
  | none => (0, st)  -- unreachable: allocate_new_logblock has inserted lba
  | some id =>
    let pb := st.heap id
    let numValid := get_num_valid cfg st pb.address
    if numValid < cfg.bs then
      let pb1 := { pb with pages := pb.pages.set off (Int.ofNat numValid) }
      let st1 := { st with heap := updFn st.heap id pb1 }
      let a := get_free_page cfg st1 pb.address
      let st2 := issueWrite st1 a
      (a, { st2 with numFTLWrite := st2.numFTLWrite + 1 })
    else
      let p := is_sequential cfg st id lba
      let st1 := if p.1 then p.2 else random_merge cfg p.2 id lba laddr
      let st2 := allocate_new_logblock cfg st1 lba laddr
      -- bast_ftl.cpp:178-181 via the stale pointer (see the docstring):
      let pbOld := st2.heap id
      let pbOld1 := { pbOld with pages := pbOld.pages.set off 0 }
      let st3 := { st2 with heap := updFn st2.heap id pbOld1 }
      let a := (st3.heap id).address
      let st4 := issueWrite st3 a
      (a, { st4 with numFTLWrite := st4.numFTLWrite + 1 })

/-- The log-block half of `FtlImpl_Bast::trim` (bast_ftl.cpp:206-220): if a
log slot is set for this page, invalidate the physical page, clear the
slot, and — if the log block is now all-invalid — drop the entry and erase
the block (PTRIM). -/
def trimLogSide (cfg : Cfg) (st : BastState) (lookupBlock off : Nat) : BastState :=
  match List.lookup lookupBlock st.log_map with
  | some id =>
    let pb := st.heap id
    if pb.pages.getD off (-1) != -1 then
      let ra := pb.address + pb.pages.getD off (-1)
      let st1 := invalidate_page st ra
      let pb1 := { pb with pages := pb.pages.set off (-1) }
      let st2 := { st1 with heap := updFn st1.heap id pb1 }
      if blockInactive cfg st2 pb.address then
        erase_block cfg (dispose_logblock st2 lookupBlock) pb.address
      else st2
    else st
  | none => st

/-- The data-block half of `FtlImpl_Bast::trim` (bast_ftl.cpp:222-234): if
a data-block mapping exists, invalidate the page at the matching offset
and — if the data block is now all-invalid — unmap it and erase it. -/
def trimDataSide (cfg : Cfg) (st : BastState) (lookupBlock off : Nat) : BastState :=
  if st.data_list lookupBlock != -1 then
    let d := st.data_list lookupBlock
    let st1 := invalidate_page st (d + off)
    if blockInactive cfg st1 d then
      erase_block cfg { st1 with data_list := updFn st1.data_list lookupBlock (-1) } d
    else st1
  else st

/-- `FtlImpl_Bast::trim` (bast_ftl.cpp:192-246): both halves run
independently, then the metadata-read charge and statistics. -/
def trim (cfg : Cfg) (st : BastState) (laddr : Nat) : BastState :=
  let lookupBlock := laddr >>> cfg.shift
  let off := laddr % cfg.bs
  let st := { st with numMemoryRead := st.numMemoryRead + 1 }
  let st := trimLogSide cfg st lookupBlock off
  let st := trimDataSide cfg st lookupBlock off
  { st with mapReads := st.mapReads + 1, numFTLTrim := st.numFTLTrim + 1 }

/-- Fuel-indexed halving counter (structural recursion so that it reduces
in the kernel); `fuel ≥ n` suffices since `n` halves each step. -/
def shiftLoopAux : Nat → Nat → Nat
  | 0, _ => 0
  | fuel + 1, n => if n = 0 then 0 else shiftLoopAux fuel (n / 2) + 1

/-- The `addressShift` loop of the constructor (bast_ftl.cpp:83): starting
from `BLOCK_SIZE / 2`, count halvings until zero. -/
def shiftLoop (n : Nat) : Nat := shiftLoopAux n n

/-- `addressShift` as computed by the constructor from `BLOCK_SIZE`. -/
def bastShift (bs : Nat) : Nat := shiftLoop (bs / 2)

/-- The freshly constructed engine state (bast_ftl.cpp:73-100): every
`data_list` entry `-1`, empty log map, all flash erased, the free pool
supplied by the manager. -/
def bastInit (freeBlocks : List Int) : BastState :=
  { data_list := fun _ => -1
    heap := fun _ => ⟨[], 0⟩
    nextId := 0
    log_map := []
    pageState := fun _ => .EMPTY
    freeBlocks := freeBlocks
    mapReads := 0
    mapWrites := 0
    numMemoryRead := 0
    numFTLRead := 0
    numFTLWrite := 0
    numFTLTrim := 0
    numLogMergeSwitch := 0
    numLogMergeFull := 0 }

/-- `FtlImpl_Bast::FtlImpl_Bast` (bast_ftl.cpp:73-100).  The constructor
computes `addressShift` and zeroes the tables; it contains no validation of
`BLOCK_SIZE` (its only assertion concerns `sizeof(int)` and aborts on no
input).  `Option` gives the claimed fatal-construction-error outcome a
place to live: the code never produces `none`. -/
def bastConstruct (bs : Nat) (freeBlocks : List Int) : Option (Nat × BastState) :=
  some (bastShift bs, bastInit freeBlocks)

/-- The per-offset source rule of spec §4.6 step 2, for comparison with the
source's `mergeSource`.  Modelled from the spec: "Resolve the *currently
valid* source: prefer the log-block slot for `i` if set, else the existing
data-block offset `i` if a BlockMap entry exists, else skip." -/
def mergeSourceSpec (st : BastState) (id lba : Nat) (i : Nat) : Option Int :=
  let pb := st.heap id
  if pb.pages.getD i (-1) != -1 then
    some (pb.address + pb.pages.getD i (-1))
  else if st.data_list lba != -1 then
    some (st.data_list lba + i)
  else
    none

/-! ### Concrete fixtures used by counterexamples and witnesses -/

/-- `BLOCK_SIZE = 4` configuration; `addressShift` as the constructor
computes it. -/
def cfg4 : Cfg := ⟨4, bastShift 4, 10⟩

/-- `BLOCK_SIZE = 2` configuration. -/
def cfg2 : Cfg := ⟨2, bastShift 2, 10⟩

/-- Freshly constructed engine, block size 4, five free physical blocks
(linear bases 4, 8, 12, 16, 20). -/
def init4 : BastState := bastInit [4, 8, 12, 16, 20]

/-- Freshly constructed engine, block size 2, free blocks at bases
2, 4, 6, 8. -/
def init2 : BastState := bastInit [2, 4, 6, 8]

/-- Run a sequence of host writes. -/
def runWrites (cfg : Cfg) (st : BastState) (ls : List Nat) : BastState :=
  ls.foldl (fun s l => (write cfg s l).2) st

/-- Block-size-4 state about to be random-merged: log block id 0 at base 8
with slots `[2, 3, -1, -1]`, data block at base 16, all referenced pages
(and the stray page 7 just below the log block) VALID. -/
def stMerge : BastState :=
  { init4 with
    heap := updFn init4.heap 0 ⟨[2, 3, -1, -1], 8⟩
    log_map := [(0, 0)]
    data_list := updFn init4.data_list 0 16
    pageState := fun a =>
      if a = 10 ∨ a = 11 ∨ a = 16 ∨ a = 17 ∨ a = 18 ∨ a = 19 ∨ a = 7 then .VALID
      else .EMPTY }

/-- Block-size-2 state with a half-written log block (slot 0 ↦ physical
page 0 of base 2) and a fully valid data block at base 4. -/
def stTrim : BastState :=
  { init2 with
    heap := updFn init2.heap 0 ⟨[0, -1], 2⟩
    log_map := [(0, 0)]
    data_list := updFn init2.data_list 0 4
    pageState := fun a => if a = 2 ∨ a = 4 ∨ a = 5 then .VALID else .EMPTY }

/-- Log block id 0 (base 2) filled in pure logical order, with an old data
block at base 4: the sequential-switch situation. -/
def stSeq : BastState :=
  { init2 with
    heap := updFn init2.heap 0 ⟨[0, 1], 2⟩
    log_map := [(0, 0)]
    data_list := updFn init2.data_list 0 4
    pageState := fun a => if a = 2 ∨ a = 3 ∨ a = 4 ∨ a = 5 then .VALID else .EMPTY }

/-! ### Frame lemmas for the state helpers -/

@[simp] theorem invalidate_block_log_map (cfg : Cfg) (st : BastState) (b : Int) :
    (invalidate_block cfg st b).log_map = st.log_map := rfl

@[simp] theorem invalidate_block_data_list (cfg : Cfg) (st : BastState) (b : Int) :
    (invalidate_block cfg st b).data_list = st.data_list := rfl

@[simp] theorem invalidate_block_heap (cfg : Cfg) (st : BastState) (b : Int) :
    (invalidate_block cfg st b).heap = st.heap := rfl

@[simp] theorem invalidate_block_nextId (cfg : Cfg) (st : BastState) (b : Int) :
    (invalidate_block cfg st b).nextId = st.nextId := rfl

@[simp] theorem invalidate_block_freeBlocks (cfg : Cfg) (st : BastState) (b : Int) :
    (invalidate_block cfg st b).freeBlocks = st.freeBlocks := rfl

@[simp] theorem invalidate_block_mapWrites (cfg : Cfg) (st : BastState) (b : Int) :
    (invalidate_block cfg st b).mapWrites = st.mapWrites := rfl

@[simp] theorem invalidate_block_numFTLRead (cfg : Cfg) (st : BastState) (b : Int) :
    (invalidate_block cfg st b).numFTLRead = st.numFTLRead := rfl

@[simp] theorem invalidate_block_numFTLWrite (cfg : Cfg) (st : BastState) (b : Int) :
    (invalidate_block cfg st b).numFTLWrite = st.numFTLWrite := rfl

@[simp] theorem erase_block_log_map (cfg : Cfg) (st : BastState) (b : Int) :
    (erase_block cfg st b).log_map = st.log_map := rfl

@[simp] theorem erase_block_data_list (cfg : Cfg) (st : BastState) (b : Int) :
    (erase_block cfg st b).data_list = st.data_list := rfl

@[simp] theorem erase_block_heap (cfg : Cfg) (st : BastState) (b : Int) :
    (erase_block cfg st b).heap = st.heap := rfl

@[simp] theorem invalidate_page_log_map (st : BastState) (a : Int) :
    (invalidate_page st a).log_map = st.log_map := rfl

@[simp] theorem invalidate_page_data_list (st : BastState) (a : Int) :
    (invalidate_page st a).data_list = st.data_list := rfl

@[simp] theorem invalidate_page_heap (st : BastState) (a : Int) :
    (invalidate_page st a).heap = st.heap := rfl

@[simp] theorem issueWrite_log_map (st : BastState) (a : Int) :
    (issueWrite st a).log_map = st.log_map := rfl

@[simp] theorem issueWrite_data_list (st : BastState) (a : Int) :
    (issueWrite st a).data_list = st.data_list := rfl

@[simp] theorem issueWrite_heap (st : BastState) (a : Int) :
    (issueWrite st a).heap = st.heap := rfl

@[simp] theorem dispose_logblock_log_map (st : BastState) (lba : Nat) :
    (dispose_logblock st lba).log_map = st.log_map.eraseP (fun p => p.1 == lba) := rfl

@[simp] theorem dispose_logblock_data_list (st : BastState) (lba : Nat) :
    (dispose_logblock st lba).data_list = st.data_list := rfl

@[simp] theorem dispose_logblock_heap (st : BastState) (lba : Nat) :
    (dispose_logblock st lba).heap = st.heap := rfl

@[simp] theorem dispose_logblock_nextId (st : BastState) (lba : Nat) :
    (dispose_logblock st lba).nextId = st.nextId := rfl

@[simp] theorem dispose_logblock_pageState (st : BastState) (lba : Nat) :
    (dispose_logblock st lba).pageState = st.pageState := rfl

@[simp] theorem dispose_logblock_mapWrites (st : BastState) (lba : Nat) :
    (dispose_logblock st lba).mapWrites = st.mapWrites := rfl

@[simp] theorem dispose_logblock_freeBlocks (st : BastState) (lba : Nat) :
    (dispose_logblock st lba).freeBlocks = st.freeBlocks := rfl

@[simp] theorem dispose_logblock_numFTLRead (st : BastState) (lba : Nat) :
    (dispose_logblock st lba).numFTLRead = st.numFTLRead := rfl

@[simp] theorem dispose_logblock_numFTLWrite (st : BastState) (lba : Nat) :
    (dispose_logblock st lba).numFTLWrite = st.numFTLWrite := rfl

@[simp] theorem mergeFold_log_map (newD : Int) (l : List (Nat × Int)) (s : BastState) :
    (l.foldl (mergeCopyStep newD) s).log_map = s.log_map := by
  induction l generalizing s with
  | nil => rfl
  | cons p rest ih => simpa [mergeCopyStep] using ih (mergeCopyStep newD s p)

@[simp] theorem mergeFold_data_list (newD : Int) (l : List (Nat × Int)) (s : BastState) :
    (l.foldl (mergeCopyStep newD) s).data_list = s.data_list := by
  induction l generalizing s with
  | nil => rfl
  | cons p rest ih => simpa [mergeCopyStep] using ih (mergeCopyStep newD s p)

@[simp] theorem mergeFold_heap (newD : Int) (l : List (Nat × Int)) (s : BastState) :
    (l.foldl (mergeCopyStep newD) s).heap = s.heap := by
  induction l generalizing s with
  | nil => rfl
  | cons p rest ih => simpa [mergeCopyStep] using ih (mergeCopyStep newD s p)

@[simp] theorem mergeFold_nextId (newD : Int) (l : List (Nat × Int)) (s : BastState) :
    (l.foldl (mergeCopyStep newD) s).nextId = s.nextId := by
  induction l generalizing s with
  | nil => rfl
  | cons p rest ih => simpa [mergeCopyStep] using ih (mergeCopyStep newD s p)

@[simp] theorem mergeFold_freeBlocks (newD : Int) (l : List (Nat × Int)) (s : BastState) :
    (l.foldl (mergeCopyStep newD) s).freeBlocks = s.freeBlocks := by
  induction l generalizing s with
  | nil => rfl
  | cons p rest ih => simpa [mergeCopyStep] using ih (mergeCopyStep newD s p)

@[simp] theorem data_list_ite (c : Prop) [Decidable c] (a b : BastState) :
    (if c then a else b).data_list = if c then a.data_list else b.data_list := by
  split <;> rfl

@[simp] theorem heap_ite (c : Prop) [Decidable c] (a b : BastState) :
    (if c then a else b).heap = if c then a.heap else b.heap := by
  split <;> rfl

@[simp] theorem nextId_ite (c : Prop) [Decidable c] (a b : BastState) :
    (if c then a else b).nextId = if c then a.nextId else b.nextId := by
  split <;> rfl

@[simp] theorem log_map_ite (c : Prop) [Decidable c] (a b : BastState) :
    (if c then a else b).log_map = if c then a.log_map else b.log_map := by
  split <;> rfl

@[simp] theorem pageState_ite (c : Prop) [Decidable c] (a b : BastState) :
    (if c then a else b).pageState = if c then a.pageState else b.pageState := by
  split <;> rfl

@[simp] theorem freeBlocks_ite (c : Prop) [Decidable c] (a b : BastState) :
    (if c then a else b).freeBlocks = if c then a.freeBlocks else b.freeBlocks := by
  split <;> rfl

@[simp] theorem mapWrites_ite (c : Prop) [Decidable c] (a b : BastState) :
    (if c then a else b).mapWrites = if c then a.mapWrites else b.mapWrites := by
  split <;> rfl

@[simp] theorem numFTLRead_ite (c : Prop) [Decidable c] (a b : BastState) :
    (if c then a else b).numFTLRead = if c then a.numFTLRead else b.numFTLRead := by
  split <;> rfl

@[simp] theorem numFTLWrite_ite (c : Prop) [Decidable c] (a b : BastState) :
    (if c then a else b).numFTLWrite = if c then a.numFTLWrite else b.numFTLWrite := by
  split <;> rfl

theorem get_free_block_log_map (st : BastState) :
    (get_free_block st).2.log_map = st.log_map := by
  cases h : st.freeBlocks <;> simp [get_free_block, h]

theorem get_free_block_nextId (st : BastState) :
    (get_free_block st).2.nextId = st.nextId := by
  cases h : st.freeBlocks <;> simp [get_free_block, h]

/-! ### Characterization of the merge routines -/

theorem is_sequential_false_state (cfg : Cfg) (st : BastState) (id lba : Nat)
    (h : (is_sequential cfg st id lba).1 = false) :
    (is_sequential cfg st id lba).2 = st := by
  by_cases hs : ((List.range cfg.bs).all
      (fun i => (st.heap id).pages.getD i (-1) == (i : Int))) = true
  · rw [is_sequential] at h
    simp only [hs, if_true] at h
    exact absurd h (by decide)
  · rw [is_sequential]
    simp only [hs]
    simp

theorem random_merge_log_map (cfg : Cfg) (st : BastState) (id lba ev : Nat) :
    (random_merge cfg st id lba ev).log_map =
      st.log_map.eraseP (fun p => p.1 == lba) := by
  cases h : st.freeBlocks with
  | nil => simp only [random_merge, get_free_block, h]; split <;> simp
  | cons b t => simp only [random_merge, get_free_block, h]; split <;> simp

theorem random_merge_nextId (cfg : Cfg) (st : BastState) (id lba ev : Nat) :
    (random_merge cfg st id lba ev).nextId = st.nextId := by
  cases h : st.freeBlocks with
  | nil => simp only [random_merge, get_free_block, h]; split <;> simp
  | cons b t => simp only [random_merge, get_free_block, h]; split <;> simp

theorem is_sequential_fst (cfg : Cfg) (st : BastState) (id lba : Nat) :
    (is_sequential cfg st id lba).1 =
      (List.range cfg.bs).all (fun i => (st.heap id).pages.getD i (-1) == (i : Int)) := by
  cases hs : (List.range cfg.bs).all
      (fun i => (st.heap id).pages.getD i (-1) == (i : Int)) with
  | true => simp only [is_sequential]; rw [hs]; simp
  | false => simp only [is_sequential]; rw [hs]; simp

theorem is_sequential_log_map (cfg : Cfg) (st : BastState) (id lba : Nat) :
    (is_sequential cfg st id lba).2.log_map =
      (if (is_sequential cfg st id lba).1 = true
       then st.log_map.eraseP (fun p => p.1 == lba) else st.log_map) := by
  cases hs : (List.range cfg.bs).all
      (fun i => (st.heap id).pages.getD i (-1) == (i : Int)) with
  | true =>
    rw [if_pos (by rw [is_sequential_fst, hs])]
    simp only [is_sequential]
    rw [hs]
    simp
  | false =>
    have h0 : (is_sequential cfg st id lba).1 = false := by rw [is_sequential_fst, hs]
    rw [if_neg (by rw [h0]; decide), is_sequential_false_state cfg st id lba h0]

theorem is_sequential_nextId (cfg : Cfg) (st : BastState) (id lba : Nat) :
    (is_sequential cfg st id lba).2.nextId = st.nextId := by
  cases hs : (List.range cfg.bs).all
      (fun i => (st.heap id).pages.getD i (-1) == (i : Int)) with
  | true =>
    simp only [is_sequential]
    rw [hs]
    simp
  | false =>
    have h0 : (is_sequential cfg st id lba).1 = false := by rw [is_sequential_fst, hs]
    rw [is_sequential_false_state cfg st id lba h0]

/-! ### Association-list helpers -/

theorem lookup_cons_none {x k v : Nat} {l : List (Nat × Nat)}
    (h : List.lookup x ((k, v) :: l) = none) :
    (x == k) = false ∧ List.lookup x l = none := by
  cases hxk : x == k <;> simp [List.lookup, hxk] at h ⊢
  exact h

theorem lookup_append_self {x v : Nat} {l : List (Nat × Nat)}
    (h : List.lookup x l = none) :
    List.lookup x (l ++ [(x, v)]) = some v := by
  induction l with
  | nil => simp [List.lookup]
  | cons p t ih =>
    obtain ⟨k, w⟩ := p
    obtain ⟨hxk, ht⟩ := lookup_cons_none h
    rw [List.cons_append]
    simp only [List.lookup, hxk]
    exact ih ht

theorem length_mapInsert_le (m : List (Nat × Nat)) (k v : Nat) :
    (mapInsert m k v).length ≤ m.length + 1 := by
  unfold mapInsert
  split
  · simp
  · simp

theorem mapInsert_of_absent {m : List (Nat × Nat)} {k : Nat} (v : Nat)
    (h : List.lookup k m = none) :
    mapInsert m k v = m ++ [(k, v)] := by
  simp [mapInsert, h]

/-! ### Characterization of allocation and eviction -/

theorem allocate_log_map (cfg : Cfg) (st : BastState) (lba ev : Nat) :
    (allocate_new_logblock cfg st lba ev).log_map =
      mapInsert (evictIfFull cfg st ev).log_map lba (evictIfFull cfg st ev).nextId := by
  cases hfb : (evictIfFull cfg st ev).freeBlocks with
  | nil => simp [allocate_new_logblock, get_free_block, hfb]
  | cons b t => simp [allocate_new_logblock, get_free_block, hfb]

theorem allocate_nextId (cfg : Cfg) (st : BastState) (lba ev : Nat) :
    (allocate_new_logblock cfg st lba ev).nextId =
      (evictIfFull cfg st ev).nextId + 1 := by
  cases hfb : (evictIfFull cfg st ev).freeBlocks with
  | nil => simp [allocate_new_logblock, get_free_block, hfb]
  | cons b t => simp [allocate_new_logblock, get_free_block, hfb]

theorem evictIfFull_lt (cfg : Cfg) (st : BastState) (ev : Nat)
    (h : st.log_map.length < cfg.logLimit) :
    evictIfFull cfg st ev = st := by
  rw [evictIfFull, if_neg (not_le.mpr h)]

theorem evictIfFull_ge (cfg : Cfg) (st : BastState) (ev k b : Nat)
    (t : List (Nat × Nat)) (hmap : st.log_map = (k, b) :: t)
    (hcap : cfg.logLimit ≤ st.log_map.length) :
    (evictIfFull cfg st ev).log_map = t ∧
    (evictIfFull cfg st ev).nextId = st.nextId := by
  rw [evictIfFull, if_pos hcap, hmap]
  cases hseq : (is_sequential cfg st b k).1 with
  | true =>
    simp only [hseq, if_true]
    constructor
    · rw [is_sequential_log_map, if_pos hseq, hmap]
      exact List.eraseP_cons_of_pos (by simp)
    · exact is_sequential_nextId cfg st b k
  | false =>
    simp only [hseq, Bool.false_eq_true, if_false]
    rw [is_sequential_false_state cfg st b k hseq]
    constructor
    · rw [random_merge_log_map, hmap]
      exact List.eraseP_cons_of_pos (by simp)
    · exact random_merge_nextId cfg st b k ev

theorem allocate_length_le (cfg : Cfg) (st : BastState) (lba ev : Nat)
    (hlim : 1 ≤ cfg.logLimit) (hlen : st.log_map.length ≤ cfg.logLimit) :
    (allocate_new_logblock cfg st lba ev).log_map.length ≤ cfg.logLimit := by
  rw [allocate_log_map]
  rcases le_or_lt cfg.logLimit st.log_map.length with hc | hc
  · cases hmap : st.log_map with
    | nil => rw [hmap] at hc; simp at hc; omega
    | cons hd t =>
      obtain ⟨k, b⟩ := hd
      obtain ⟨hl, -⟩ := evictIfFull_ge cfg st ev k b t hmap hc
      refine (length_mapInsert_le _ _ _).trans ?_
      rw [hl]
      have : st.log_map.length = t.length + 1 := by rw [hmap]; simp
      omega
  · rw [evictIfFull_lt cfg st ev hc]
    exact (length_mapInsert_le _ _ _).trans (by omega)

theorem trimLogSide_log_map_le (cfg : Cfg) (s : BastState) (b o : Nat) :
    (trimLogSide cfg s b o).log_map.length ≤ s.log_map.length := by
  unfold trimLogSide
  split
  · dsimp only
    split
    · split
      · simpa using List.length_eraseP_le _
      · simp
    · simp
  · simp

theorem trimDataSide_log_map (cfg : Cfg) (s : BastState) (b o : Nat) :
    (trimDataSide cfg s b o).log_map = s.log_map := by
  unfold trimDataSide
  split
  · dsimp only
    split <;> simp
  · rfl

theorem trim_log_map_le (cfg : Cfg) (st : BastState) (laddr : Nat) :
    (trim cfg st laddr).log_map.length ≤ st.log_map.length := by
  simp only [trim]
  rw [trimDataSide_log_map]
  exact trimLogSide_log_map_le cfg _ _ _

theorem write_log_map_length_le (cfg : Cfg) (st : BastState) (laddr : Nat)
    (hlim : 1 ≤ cfg.logLimit) (hlen : st.log_map.length ≤ cfg.logLimit) :
    (write cfg st laddr).2.log_map.length ≤ cfg.logLimit := by
  by_cases hc : (List.lookup (laddr >>> cfg.shift) st.log_map).isNone = true
  · have hs : (allocate_new_logblock cfg st (laddr >>> cfg.shift) laddr).log_map.length ≤
        cfg.logLimit := allocate_length_le cfg st _ _ hlim hlen
    simp only [write, hc, if_true]
    split
    · exact hs
    · split
      · exact hs
      · apply allocate_length_le _ _ _ _ hlim
        split
        · rename_i hp
          rw [is_sequential_log_map, if_pos hp]
          exact (List.length_eraseP_le _).trans hs
        · rename_i hp
          rw [random_merge_log_map, is_sequential_false_state _ _ _ _ (by simpa using hp)]
          exact (List.length_eraseP_le _).trans hs
  · have hs : st.log_map.length ≤ cfg.logLimit := hlen
    have hc' : (List.lookup (laddr >>> cfg.shift) st.log_map).isNone = false := by
      simpa using hc
    simp only [write, hc', Bool.false_eq_true, if_false]
    split
    · exact hs
    · split
      · exact hs
      · apply allocate_length_le _ _ _ _ hlim
        split
        · rename_i hp
          rw [is_sequential_log_map, if_pos hp]
          exact (List.length_eraseP_le _).trans hs
        · rename_i hp
          rw [random_merge_log_map, is_sequential_false_state _ _ _ _ (by simpa using hp)]
          exact (List.length_eraseP_le _).trans hs

/-! ### Canonical log-block states and the write append path -/

@[simp] theorem updFn_self {α : Type} (f : Nat → α) (k : Nat) (v : α) :
    updFn f k v k = v := by
  simp [updFn]

theorem updFn_ne {α : Type} (f : Nat → α) (k : Nat) (v : α) (x : Nat) (h : x ≠ k) :
    updFn f k v x = f x := by
  simp [updFn, h]

@[simp] theorem updFnI_self {α : Type} (f : Int → α) (k : Int) (v : α) :
    updFnI f k v k = v := by
  simp [updFnI]

theorem updFnI_ne {α : Type} (f : Int → α) (k : Int) (v : α) (x : Int) (h : x ≠ k) :
    updFnI f k v x = f x := by
  simp [updFnI, h]

theorem countP_range_lt (bs k : Nat) (hk : k ≤ bs) :
    (List.range bs).countP (fun o => decide (o < k)) = k := by
  induction bs with
  | zero =>
    simp only [List.range_zero, List.countP_nil]
    omega
  | succ n ih =>
    rw [List.range_succ, List.countP_append]
    by_cases hkn : k ≤ n
    · rw [ih hkn]
      have hnk : ¬(n < k) := by omega
      simp [List.countP_cons, hnk]
    · have hk1 : k = n + 1 := by omega
      subst hk1
      rw [List.countP_eq_length.mpr (fun a ha => by
        rw [List.mem_range] at ha
        simp only [decide_eq_true_eq]
        omega)]
      simp [List.countP_cons, List.length_range]

theorem find?_range_first (bs k : Nat) (hk : k < bs) (p : Nat → Bool)
    (h0 : ∀ o < k, p o = false) (h1 : p k = true) :
    (List.range bs).find? p = some k := by
  have hsplit : List.range bs = List.range k ++ (List.range (bs - k)).map (k + ·) := by
    rw [← List.range_add]
    congr 1
    omega
  rw [hsplit, List.find?_append]
  have hnone : (List.range k).find? p = none :=
    List.find?_eq_none.mpr (fun a ha => by
      rw [List.mem_range] at ha
      simp [h0 a ha])
  rw [hnone, Option.none_or]
  obtain ⟨m, hm⟩ : ∃ m, bs - k = m + 1 := ⟨bs - k - 1, by omega⟩
  rw [hm, List.range_succ_eq_map, List.map_cons]
  simp only [Nat.add_zero]
  rw [List.find?_cons_of_pos _ (by simpa using h1)]

theorem get_num_valid_eq_k (cfg : Cfg) (st : BastState) (base : Int) (k : Nat)
    (hk : k ≤ cfg.bs)
    (h : ∀ o, o < cfg.bs →
      st.pageState (base + (o : Int)) = (if o < k then .VALID else .EMPTY)) :
    get_num_valid cfg st base = k := by
  unfold get_num_valid
  rw [List.countP_congr (q := fun o => decide (o < k)) (fun o ho => ?_),
      countP_range_lt cfg.bs k hk]
  rw [List.mem_range] at ho
  rw [h o ho]
  by_cases hok : o < k <;> simp [hok] <;> decide

theorem get_free_page_eq_k (cfg : Cfg) (st : BastState) (base : Int) (k : Nat)
    (hk : k < cfg.bs)
    (h : ∀ o, o < cfg.bs →
      st.pageState (base + (o : Int)) = (if o < k then .VALID else .EMPTY)) :
    get_free_page cfg st base = base + (k : Int) := by
  unfold get_free_page
  rw [find?_range_first cfg.bs k hk _ ?_ ?_]
  · simp
  · intro o ho
    rw [h o (by omega)]
    simp [ho]
    decide
  · rw [h k hk]
    simp
    decide

theorem getD_set_self (l : List Int) (i : Nat) (v : Int) (h : i < l.length) :
    (l.set i v).getD i (-1) = v := by
  rw [List.getD_eq_getElem?_getD, List.getElem?_set_self (by simpa using h)]
  rfl

theorem write_append_hit (cfg : Cfg) (sA : BastState) (laddr id k : Nat)
    (hbs : 0 < cfg.bs)
    (hid : List.lookup (laddr >>> cfg.shift) sA.log_map = some id)
    (hlenp : (sA.heap id).pages.length = cfg.bs)
    (hfk : ∀ o, o < cfg.bs →
      sA.pageState ((sA.heap id).address + (o : Int)) = (if o < k then .VALID else .EMPTY))
    (hk : k < cfg.bs) :
    (write cfg sA laddr).1 = (sA.heap id).address + (k : Int) ∧
    List.lookup (laddr >>> cfg.shift) (write cfg sA laddr).2.log_map = some id ∧
    ((write cfg sA laddr).2.heap id).address = (sA.heap id).address ∧
    ((write cfg sA laddr).2.heap id).pages.getD (laddr % cfg.bs) (-1) = (k : Int) ∧
    (write cfg sA laddr).2.pageState ((sA.heap id).address + (k : Int)) = .VALID ∧
    get_num_valid cfg sA ((sA.heap id).address) = k := by
  have hnv : get_num_valid cfg sA ((sA.heap id).address) = k :=
    get_num_valid_eq_k cfg sA _ k (Nat.le_of_lt hk) hfk
  have hnvB : get_num_valid cfg { sA with numMemoryRead := sA.numMemoryRead + 1 }
      ((sA.heap id).address) = k :=
    get_num_valid_eq_k cfg _ _ k (Nat.le_of_lt hk) hfk
  have hfp : get_free_page cfg
      { sA with
          heap := updFn sA.heap id
            ⟨(sA.heap id).pages.set (laddr % cfg.bs) (Int.ofNat k), (sA.heap id).address⟩,
          numMemoryRead := sA.numMemoryRead + 1 }
      ((sA.heap id).address) = (sA.heap id).address + (k : Int) :=
    get_free_page_eq_k cfg _ _ k hk hfk
  simp only [write, hid, Option.isNone_some, Bool.false_eq_true, if_false]
  rw [hnvB, if_pos hk]
  rw [hfp]
  have hmod : laddr % cfg.bs < (sA.heap id).pages.length := by
    rw [hlenp]
    exact Nat.mod_lt _ hbs
  refine ⟨rfl, ?_, ?_, ?_, ?_, hnv⟩
  · simpa [issueWrite] using hid
  · simp [issueWrite, updFn]
  · simp [issueWrite, updFn]
    rw [List.getElem?_set_self (by simpa using hmod)]
    rfl
  · simp [issueWrite, updFnI]


theorem read_log_hit (cfg : Cfg) (s : BastState) (laddr id : Nat) (v : Int)
    (hid : List.lookup (laddr >>> cfg.shift) s.log_map = some id)
    (hslot : (s.heap id).pages.getD (laddr % cfg.bs) (-1) = v)
    (hv : v ≠ -1)
    (hps : s.pageState ((s.heap id).address + v) = .VALID) :
    (read cfg s laddr).1 = (s.heap id).address + v := by
  simp only [read, hid]
  rw [List.getD_eq_getElem?_getD] at hslot
  simp [hslot, hv, hps]

theorem write_absent_eq (cfg : Cfg) (st : BastState) (laddr : Nat)
    (hc : List.lookup (laddr >>> cfg.shift) st.log_map = none)
    (hcA : (List.lookup (laddr >>> cfg.shift)
      (allocate_new_logblock cfg st (laddr >>> cfg.shift) laddr).log_map).isSome = true) :
    write cfg st laddr =
      write cfg (allocate_new_logblock cfg st (laddr >>> cfg.shift) laddr) laddr := by
  have h2 : (List.lookup (laddr >>> cfg.shift)
      (allocate_new_logblock cfg st (laddr >>> cfg.shift) laddr).log_map).isNone = false := by
    cases hx : List.lookup (laddr >>> cfg.shift)
        (allocate_new_logblock cfg st (laddr >>> cfg.shift) laddr).log_map with
    | none => rw [hx] at hcA; simp at hcA
    | some y => rfl
  simp only [write, hc, Option.isNone_none, if_true, h2, Bool.false_eq_true, if_false]

theorem allocate_fresh (cfg : Cfg) (st : BastState) (lba ev : Nat) {f : Int} {fs : List Int}
    (hlt : st.log_map.length < cfg.logLimit)
    (habs : List.lookup lba st.log_map = none)
    (hfb : st.freeBlocks = f :: fs) :
    List.lookup lba (allocate_new_logblock cfg st lba ev).log_map = some st.nextId ∧
    (allocate_new_logblock cfg st lba ev).heap st.nextId =
      ⟨List.replicate cfg.bs (-1), f⟩ ∧
    (allocate_new_logblock cfg st lba ev).pageState = st.pageState := by
  have he := evictIfFull_lt cfg st ev hlt
  refine ⟨?_, ?_, ?_⟩
  · rw [allocate_log_map, he, mapInsert_of_absent _ habs]
    exact lookup_append_self habs
  · simp [allocate_new_logblock, he, get_free_block, hfb, updFn]
  · simp [allocate_new_logblock, he, get_free_block, hfb]

/-! ### Arithmetic facts about the constructor's shift loop -/

theorem shiftLoopAux_zero (f : Nat) : shiftLoopAux f 0 = 0 := by
  cases f <;> simp [shiftLoopAux]

theorem shiftLoopAux_fuel (n : Nat) : ∀ f₁ f₂, n ≤ f₁ → n ≤ f₂ →
    shiftLoopAux f₁ n = shiftLoopAux f₂ n := by
  induction n using Nat.strong_induction_on with
  | _ n ih =>
    intro f₁ f₂ h₁ h₂
    match n, f₁, f₂ with
    | 0, f₁, f₂ => rw [shiftLoopAux_zero, shiftLoopAux_zero]
    | m + 1, g₁ + 1, g₂ + 1 =>
      simp only [shiftLoopAux]
      rw [ih ((m + 1) / 2) (by omega) g₁ g₂ (by omega) (by omega)]

theorem shiftLoop_eq (n : Nat) :
    shiftLoop n = if n = 0 then 0 else shiftLoop (n / 2) + 1 := by
  match n with
  | 0 => rfl
  | m + 1 =>
    simp only [shiftLoop, shiftLoopAux, Nat.succ_ne_zero, if_false]
    rw [shiftLoopAux_fuel ((m + 1) / 2) m ((m + 1) / 2) (by omega) (by omega)]

theorem shiftLoop_spec (n : Nat) (h : 1 ≤ n) :
    2 ^ shiftLoop n ≤ 2 * n ∧ n < 2 ^ shiftLoop n := by
  induction n using Nat.strong_induction_on with
  | _ n ih =>
    match n, h with
    | 1, _ => decide
    | m + 2, _ =>
      have hm : 1 ≤ (m + 2) / 2 := by omega
      have hlt : (m + 2) / 2 < m + 2 := by omega
      obtain ⟨ha, hb⟩ := ih ((m + 2) / 2) hlt hm
      rw [shiftLoop_eq]
      simp only [Nat.succ_ne_zero, if_false, pow_succ]
      omega

theorem bastShift_spec (bs : Nat) (h : 1 ≤ bs) :
    2 ^ bastShift bs ≤ bs ∧ bs < 2 ^ (bastShift bs + 1) := by
  match bs, h with
  | 1, _ => decide
  | m + 2, _ =>
    have hm : 1 ≤ (m + 2) / 2 := by omega
    obtain ⟨ha, hb⟩ := shiftLoop_spec ((m + 2) / 2) hm
    unfold bastShift
    constructor
    · omega
    · rw [pow_succ]; omega

/-! ### Claim theorems -/

/-- Claim C10: a read never modifies the translation state — after `read`
the Block Map array, the Log Map, the heap of LogBlocks (hence every slot
table), the id counter, the flash page states and the free pool are all
unchanged; only the event resolution and the statistics counters move. -/
theorem read_preserves_translation_state (cfg : Cfg) (st : BastState) (laddr : Nat) :
    (read cfg st laddr).2.log_map = st.log_map ∧
    (read cfg st laddr).2.data_list = st.data_list ∧
    (read cfg st laddr).2.heap = st.heap ∧
    (read cfg st laddr).2.nextId = st.nextId ∧
    (read cfg st laddr).2.pageState = st.pageState ∧
    (read cfg st laddr).2.freeBlocks = st.freeBlocks :=
  ⟨rfl, rfl, rfl, rfl, rfl, rfl⟩

/-- Claim C9, counterexample: with `BLOCK_SIZE = 5` — not a power of two,
since `2^2 < 5 < 2^3` — construction does not fail: it returns the engine
with `addressShift = 2`, and `2 ^ 2 ≠ 5`, exactly the "incorrect address
shift" outcome the claim says is prevented. -/
theorem construct_accepts_non_pow2_cx :
    bastConstruct 5 [] = some (2, bastInit []) ∧
    2 ^ 2 < 5 ∧ 5 < 2 ^ 3 ∧ 2 ^ 2 ≠ 5 :=
  ⟨rfl, by decide, by decide, by decide⟩

/-- Claim C9 (amended): construction performs no validation of the block
size — it always succeeds, for every `BLOCK_SIZE ≥ 1` computing
`addressShift = ⌊log2 BLOCK_SIZE⌋` (so `2 ^ shift = BLOCK_SIZE` exactly
when the size is a power of two); nothing fails on a non-power-of-two
size. -/
theorem construct_total_floor_log2 (bs : Nat) (fb : List Int) (h : 1 ≤ bs) :
    bastConstruct bs fb = some (bastShift bs, bastInit fb) ∧
    2 ^ bastShift bs ≤ bs ∧ bs < 2 ^ (bastShift bs + 1) :=
  ⟨rfl, (bastShift_spec bs h).1, (bastShift_spec bs h).2⟩

/-- Witness for `construct_total_floor_log2` at `BLOCK_SIZE = 5`. -/
theorem construct_total_floor_log2_witness :
    bastConstruct 5 [] = some (bastShift 5, bastInit []) ∧
    2 ^ bastShift 5 ≤ 5 ∧ 5 < 2 ^ (bastShift 5 + 1) :=
  construct_total_floor_log2 5 [] (by decide)

/-- Claim C1, counterexample: starting from a fresh engine (block size 4),
the writes `[1, 1, 1, 1, 0]` never touch logical address 2, yet after they
force a random merge of logical block 0 the read of address 2 resolves to
physical page 10 (offset 2 of the freshly merged data block at base 8,
whose page is EMPTY, not INVALID) — not to the unmapped sentinel 0. -/
theorem read_never_written_not_sentinel_cx :
    (2 : Nat) ∉ [1, 1, 1, 1, 0] ∧
    (read cfg4 (runWrites cfg4 init4 [1, 1, 1, 1, 0]) 2).1 = 10 ∧
    (10 : Int) ≠ 0 := by
  refine ⟨by decide, by decide, by decide⟩

/-- Claim C3: evaluation of the random-merge copy loop at a failing input.
Log block 0 (base 8) has slots `[2, 3, -1, -1]`, a data block exists at
base 16, and the merge is triggered by a request with page offset 0.  The
loop's guard tests the slot of the *event's* offset (0, which is set)
instead of the loop offset `i`, so for the never-written offsets 2 and 3
it reads from `log base + (-1) = 7`, an address outside the log block,
instead of taking the data-block pages 18 and 19 prescribed by the
per-offset rule (`mergeSourceSpec`). -/
theorem random_merge_event_offset_guard_cx :
    mergeCopies cfg4 stMerge 0 0 0 = [(0, 10), (1, 11), (2, 7), (3, 7)] ∧
    (List.range 4).filterMap
      (fun i => (mergeSourceSpec stMerge 0 0 i).map (fun ra => (i, ra))) =
      [(0, 10), (1, 11), (2, 18), (3, 19)] ∧
    (stMerge.heap 0).address + (stMerge.heap 0).pages.getD 2 (-1) = 7 := by
  refine ⟨by decide, by decide, by decide⟩

/-- Claim C7: evaluation of the full-log-block write path at a failing
input.  Block size 2; writes to logical address 0 twice fill log block
id 0 (base 2); the next write (logical address 1) merges, allocates the
new log block id 1 (base 6) — but, because `allocate_new_logblock` takes
its `logBlock` pointer by value, the slot update and the issued address
use the stale freed block id 0: the Log Map's new block keeps both slots
unset and the write is issued to physical address 2 (the old block), not
to offset 0 of the new block (address 6) as the claim requires. -/
theorem write_after_merge_stale_logblock_cx :
    (write cfg2 (runWrites cfg2 init2 [0, 0]) 1).1 = 2 ∧
    List.lookup 0 (write cfg2 (runWrites cfg2 init2 [0, 0]) 1).2.log_map = some 1 ∧
    ((write cfg2 (runWrites cfg2 init2 [0, 0]) 1).2.heap 1).address = 6 ∧
    ((write cfg2 (runWrites cfg2 init2 [0, 0]) 1).2.heap 1).pages = [-1, -1] ∧
    ((write cfg2 (runWrites cfg2 init2 [0, 0]) 1).2.heap 0).pages = [1, 0] := by
  refine ⟨by decide, by decide, by decide, by decide, by decide⟩

/-- Claim C1 (amended): a read resolves in the fixed priority order — a set
log slot wins and yields the log block's base plus the slot value; with no
set log slot and no BlockMap entry the unmapped sentinel 0 is returned; a
set BlockMap entry yields its base plus the page offset — and in the two
physical-address cases an INVALID tracked page state forces the sentinel.
The never-written guarantee holds in the no-log-slot, no-BlockMap-entry
case; once a merge has installed a BlockMap entry for the block, a
never-written offset resolves to that (empty, non-INVALID) data-block page
instead of the sentinel (see the counterexample). -/
theorem read_resolution_priority (cfg : Cfg) (st : BastState) (laddr : Nat) :
    (∀ id, List.lookup (laddr >>> cfg.shift) st.log_map = some id →
        (st.heap id).pages.getD (laddr % cfg.bs) (-1) ≠ -1 →
        (read cfg st laddr).1 =
          (if st.pageState ((st.heap id).address +
                (st.heap id).pages.getD (laddr % cfg.bs) (-1)) = .INVALID then 0
           else (st.heap id).address + (st.heap id).pages.getD (laddr % cfg.bs) (-1))) ∧
    ((∀ id, List.lookup (laddr >>> cfg.shift) st.log_map = some id →
        (st.heap id).pages.getD (laddr % cfg.bs) (-1) = -1) →
      st.data_list (laddr >>> cfg.shift) = -1 →
      (read cfg st laddr).1 = 0) ∧
    ((∀ id, List.lookup (laddr >>> cfg.shift) st.log_map = some id →
        (st.heap id).pages.getD (laddr % cfg.bs) (-1) = -1) →
      st.data_list (laddr >>> cfg.shift) ≠ -1 →
      (read cfg st laddr).1 =
        (if st.pageState (st.data_list (laddr >>> cfg.shift) +
              ((laddr % cfg.bs : Nat) : Int)) = .INVALID then 0
         else st.data_list (laddr >>> cfg.shift) + ((laddr % cfg.bs : Nat) : Int))) := by
  refine ⟨?_, ?_, ?_⟩
  · intro id hid hslot
    rw [List.getD_eq_getElem?_getD] at hslot
    simp only [read, hid]
    simp [hslot]
  · intro hmiss hdata
    simp only [read]
    cases h : List.lookup (laddr >>> cfg.shift) st.log_map with
    | none => simp [h, hdata]
    | some id =>
      have hm := hmiss id h
      rw [List.getD_eq_getElem?_getD] at hm
      simp [h, hm, hdata]
  · intro hmiss hdata
    simp only [read]
    cases h : List.lookup (laddr >>> cfg.shift) st.log_map with
    | none => simp [h, hdata]
    | some id =>
      have hm := hmiss id h
      rw [List.getD_eq_getElem?_getD] at hm
      simp [h, hm, hdata]

/-- Witness for `read_resolution_priority`: in `stTrim`, logical address 0
has log slot 0 set, pointing at the VALID physical page 2, so the read
resolves there. -/
theorem read_resolution_priority_witness : (read cfg2 stTrim 0).1 = 2 := by
  have h := (read_resolution_priority cfg2 stTrim 0).1 0 (by decide) (by decide)
  rw [h]
  decide

/-- Claim C4: the sequential switch fires exactly when the log block's
slots are the identity (slot i holds physical offset i for every i below
the block size); when it fires it invalidates the old BlockMap block (if
any), promotes the log block's physical block to be the BlockMap entry
with no page copied (no read/write issued, no block allocated), removes
the Log Map entry, charges one metadata write, and returns true; when the
slots are not identity-mapped it returns false and leaves the state
untouched. -/
theorem sequential_switch_spec (cfg : Cfg) (st : BastState) (id lba : Nat) :
    ((is_sequential cfg st id lba).1 = true ↔
        ∀ i < cfg.bs, (st.heap id).pages.getD i (-1) = (i : Int)) ∧
    ((is_sequential cfg st id lba).1 = true →
        (is_sequential cfg st id lba).2.data_list lba = (st.heap id).address ∧
        (is_sequential cfg st id lba).2.log_map =
          st.log_map.eraseP (fun p => p.1 == lba) ∧
        (is_sequential cfg st id lba).2.mapWrites = st.mapWrites + 1 ∧
        (is_sequential cfg st id lba).2.freeBlocks = st.freeBlocks ∧
        (is_sequential cfg st id lba).2.numFTLRead = st.numFTLRead ∧
        (is_sequential cfg st id lba).2.numFTLWrite = st.numFTLWrite ∧
        (st.data_list lba ≠ -1 → ∀ o < cfg.bs,
          (is_sequential cfg st id lba).2.pageState
            (st.data_list lba + (o : Int)) = .INVALID)) ∧
    ((is_sequential cfg st id lba).1 = false →
        (is_sequential cfg st id lba).2 = st) := by
  cases hs : (List.range cfg.bs).all
      (fun i => (st.heap id).pages.getD i (-1) == (i : Int)) with
  | true =>
    have h1 : (is_sequential cfg st id lba).1 = true := by
      simp only [is_sequential]
      rw [hs]
      simp
    have hiff : ∀ i < cfg.bs, (st.heap id).pages.getD i (-1) = (i : Int) := by
      simp only [List.all_eq_true, List.mem_range, beq_iff_eq] at hs
      exact hs
    refine ⟨iff_of_true h1 hiff, fun _ => ?_, fun hf => absurd (h1.symm.trans hf) (by decide)⟩
    refine ⟨?_, ?_, ?_, ?_, ?_, ?_, ?_⟩
    · simp only [is_sequential]
      rw [hs]
      simp [updFn]
    · simp only [is_sequential]
      rw [hs]
      simp
    · simp only [is_sequential]
      rw [hs]
      simp
    · simp only [is_sequential]
      rw [hs]
      simp
    · simp only [is_sequential]
      rw [hs]
      simp
    · simp only [is_sequential]
      rw [hs]
      simp
    · intro hd o ho
      simp only [is_sequential]
      rw [hs]
      have hany : ((List.range cfg.bs).any
          (fun o' => decide (st.data_list lba + (o' : Int) =
            st.data_list lba + (o : Int)))) = true := by
        simp only [List.any_eq_true, List.mem_range, decide_eq_true_eq]
        exact ⟨o, ho, rfl⟩
      simp [hd, invalidate_block, blockStamp, hany]
      intro hle
      exact absurd ho (by omega)
  | false =>
    have h0 : (is_sequential cfg st id lba).1 = false := by
      simp only [is_sequential]
      rw [hs]
      simp
    refine ⟨iff_of_false (by simp [h0]) ?_,
            fun ht => absurd (h0.symm.trans ht) (by decide),
            fun _ => is_sequential_false_state cfg st id lba h0⟩
    intro hall
    rw [List.all_eq_false] at hs
    obtain ⟨i, hmem, hip⟩ := hs
    rw [List.mem_range] at hmem
    exact hip (by simpa using hall i hmem)

/-- Witness for `sequential_switch_spec`: in `stSeq` the log block is
identity-filled, so the switch fires and promotes base 2 to the BlockMap
entry of block 0. -/
theorem sequential_switch_spec_witness :
    (is_sequential cfg2 stSeq 0 0).1 = true ∧
    (is_sequential cfg2 stSeq 0 0).2.data_list 0 = (stSeq.heap 0).address := by
  have h := sequential_switch_spec cfg2 stSeq 0 0
  have h1 : (is_sequential cfg2 stSeq 0 0).1 = true := h.1.mpr (by decide)
  exact ⟨h1, (h.2.1 h1).1⟩

/-- Claim C5: after any read, write or trim from a state whose Log Map is
within the `LOG_LIMIT` capacity, the Log Map is still within capacity; and
when an allocation finds the map at (or above) capacity, exactly one
existing entry is merged out before the new entry is admitted — the
resulting size equals the old size, and the new block is mapped. -/
theorem log_map_capacity (cfg : Cfg) (st : BastState) (laddr lba ev : Nat)
    (hlim : 1 ≤ cfg.logLimit) (hlen : st.log_map.length ≤ cfg.logLimit) :
    (read cfg st laddr).2.log_map.length ≤ cfg.logLimit ∧
    (write cfg st laddr).2.log_map.length ≤ cfg.logLimit ∧
    (trim cfg st laddr).log_map.length ≤ cfg.logLimit ∧
    (cfg.logLimit ≤ st.log_map.length → List.lookup lba st.log_map = none →
      (allocate_new_logblock cfg st lba ev).log_map.length = st.log_map.length ∧
      List.lookup lba (allocate_new_logblock cfg st lba ev).log_map =
        some st.nextId) := by
  refine ⟨hlen, write_log_map_length_le cfg st laddr hlim hlen,
    (trim_log_map_le cfg st laddr).trans hlen, ?_⟩
  intro hcap habs
  cases hmap : st.log_map with
  | nil =>
    rw [hmap] at hcap
    simp at hcap
    omega
  | cons hd t =>
    obtain ⟨k, b⟩ := hd
    obtain ⟨hl, hn⟩ := evictIfFull_ge cfg st ev k b t hmap hcap
    have ht : List.lookup lba t = none := (lookup_cons_none (hmap ▸ habs)).2
    constructor
    · rw [allocate_log_map, hl, hn, mapInsert_of_absent _ ht]
      simp
    · rw [allocate_log_map, hl, hn, mapInsert_of_absent _ ht]
      exact lookup_append_self ht

/-- Witness for `log_map_capacity` at `stTrim` (one live entry, limit 10). -/
theorem log_map_capacity_witness :
    (write cfg2 stTrim 0).2.log_map.length ≤ cfg2.logLimit :=
  (log_map_capacity cfg2 stTrim 0 0 0 (by decide) (by decide)).2.1

/-- Configuration with `LOG_LIMIT = 2` for the eviction scenarios. -/
def cfgL2 : Cfg := ⟨2, bastShift 2, 2⟩

/-- A Log Map at capacity 2 holding blocks 5 (inserted first) and 3: under
key order the begin() entry would be 3; under insertion order it is 5. -/
def stEvict : BastState :=
  { init2 with log_map := [(5, 0), (3, 1)], nextId := 2 }

/-- Claim C6: when allocation finds the Log Map at capacity, the entry
selected for forced merge-and-removal is the head of the insertion-ordered
map — the first-inserted (oldest) entry — for every map contents: the
result is the old tail, in order, with the new entry appended as newest. -/
theorem log_eviction_fifo (cfg : Cfg) (st : BastState) (lba ev k b : Nat)
    (t : List (Nat × Nat)) (hmap : st.log_map = (k, b) :: t)
    (hcap : cfg.logLimit ≤ st.log_map.length)
    (habs : List.lookup lba st.log_map = none) :
    (allocate_new_logblock cfg st lba ev).log_map = t ++ [(lba, st.nextId)] := by
  obtain ⟨hl, hn⟩ := evictIfFull_ge cfg st ev k b t hmap hcap
  have ht : List.lookup lba t = none := (lookup_cons_none (hmap ▸ habs)).2
  rw [allocate_log_map, hl, hn, mapInsert_of_absent _ ht]

/-- Witness for `log_eviction_fifo`: with entries `[(5, …), (3, …)]` the
first-inserted key 5 is evicted (not the smallest key 3), leaving
`[(3, 1), (7, 2)]`. -/
theorem log_eviction_fifo_witness :
    (allocate_new_logblock cfgL2 stEvict 7 0).log_map = [(3, 1), (7, 2)] := by
  have h := log_eviction_fifo cfgL2 stEvict 7 0 5 0 [(3, 1)] rfl (by decide) (by decide)
  simpa using h

/-- Claim C2: a write to logical address A with the log block not full
(canonical prefix-valid physical block, or a fresh allocation from an
erased free block), followed immediately by a read of A, resolves the read
to the exact physical location the write was issued to: the write records
slot[page_offset] = the block's current valid-page count k (the next free
physical offset, not necessarily the page offset) and issues the write to
base + k, and the read comes back to base + k. -/
theorem write_then_read (cfg : Cfg) (st : BastState) (laddr : Nat)
    (hbs : 0 < cfg.bs)
    (hcase : (∃ id k, List.lookup (laddr >>> cfg.shift) st.log_map = some id ∧
          (st.heap id).pages.length = cfg.bs ∧
          (∀ o, o < cfg.bs → st.pageState ((st.heap id).address + (o : Int)) =
            (if o < k then .VALID else .EMPTY)) ∧ k < cfg.bs) ∨
        (List.lookup (laddr >>> cfg.shift) st.log_map = none ∧
          st.log_map.length < cfg.logLimit ∧
          ∃ f fs, st.freeBlocks = f :: fs ∧
            (∀ o, o < cfg.bs → st.pageState (f + (o : Int)) = .EMPTY))) :
    ∃ (id k : Nat), List.lookup (laddr >>> cfg.shift) (write cfg st laddr).2.log_map = some id ∧
      ((write cfg st laddr).2.heap id).pages.getD (laddr % cfg.bs) (-1) = (k : Int) ∧
      k = get_num_valid cfg st (((write cfg st laddr).2.heap id).address) ∧
      (write cfg st laddr).1 = ((write cfg st laddr).2.heap id).address + (k : Int) ∧
      (read cfg (write cfg st laddr).2 laddr).1 = (write cfg st laddr).1 := by
  rcases hcase with ⟨id, k, hid, hlenp, hfk, hk⟩ | ⟨habs, hlt, f, fs, hfb, hemp⟩
  · obtain ⟨h1, h2, h3, h4, h5, h6⟩ := write_append_hit cfg st laddr id k hbs hid hlenp hfk hk
    refine ⟨id, k, h2, h4, ?_, ?_, ?_⟩
    · rw [h3]
      exact h6.symm
    · rw [h1, h3]
    · rw [read_log_hit cfg _ laddr id ((k : Nat) : Int) h2 h4 (by omega) (by rw [h3]; exact h5)]
      rw [h1, h3]
  · obtain ⟨ha1, ha2, ha3⟩ := allocate_fresh cfg st (laddr >>> cfg.shift) laddr hlt habs hfb
    have hcA : (List.lookup (laddr >>> cfg.shift)
        (allocate_new_logblock cfg st (laddr >>> cfg.shift) laddr).log_map).isSome = true := by
      rw [ha1]; rfl
    rw [write_absent_eq cfg st laddr habs hcA]
    have hlen0 : ((allocate_new_logblock cfg st (laddr >>> cfg.shift) laddr).heap
        st.nextId).pages.length = cfg.bs := by
      rw [ha2]
      simp
    have hfk0 : ∀ o, o < cfg.bs →
        (allocate_new_logblock cfg st (laddr >>> cfg.shift) laddr).pageState
          (((allocate_new_logblock cfg st (laddr >>> cfg.shift) laddr).heap
            st.nextId).address + (o : Int)) =
          (if o < 0 then .VALID else .EMPTY) := by
      intro o ho
      rw [ha2, ha3]
      simpa using hemp o ho
    obtain ⟨h1, h2, h3, h4, h5, h6⟩ := write_append_hit cfg _ laddr st.nextId 0 hbs ha1 hlen0 hfk0 hbs
    have hgnv : get_num_valid cfg st
        (((write cfg (allocate_new_logblock cfg st (laddr >>> cfg.shift) laddr) laddr).2.heap
          st.nextId).address) = 0 := by
      rw [h3, ha2]
      exact get_num_valid_eq_k cfg st f 0 (Nat.zero_le _) (fun o ho => by simpa using hemp o ho)
    refine ⟨st.nextId, 0, h2, h4, hgnv.symm, ?_, ?_⟩
    · rw [h1, h3]
    · rw [read_log_hit cfg _ laddr st.nextId (((0 : Nat) : Int)) h2 h4 (by omega) (by rw [h3]; exact h5)]
      rw [h1, h3]

/-- Witness for `write_then_read`: the first write ever (logical address 1
on a fresh block-size-2 engine) goes to offset 0 of the fresh log block
and the read returns the same address. -/
theorem write_then_read_witness :
    (read cfg2 (write cfg2 init2 1).2 1).1 = (write cfg2 init2 1).1 := by
  obtain ⟨id, k, -, -, -, -, h⟩ := write_then_read cfg2 init2 1 (by decide)
    (Or.inr ⟨by decide, by decide, 2, [4, 6, 8], rfl, fun o ho => rfl⟩)
  exact h

end Bast

namespace Bast

theorem lookup_eq_none_of_not_mem {l : List (Nat × Nat)} {a : Nat}
    (h : a ∉ l.map Prod.fst) : List.lookup a l = none := by
  induction l with
  | nil => rfl
  | cons p t ih =>
    rw [List.map_cons, List.mem_cons] at h
    push_neg at h
    simp [List.lookup, beq_false_of_ne h.1, ih h.2]

theorem lookup_eraseP_self {m : List (Nat × Nat)} {lba : Nat}
    (hnd : (m.map Prod.fst).Nodup) :
    List.lookup lba (m.eraseP (fun p => p.1 == lba)) = none := by
  induction m with
  | nil => rfl
  | cons p t ih =>
    obtain ⟨k, v⟩ := p
    rw [List.map_cons, List.nodup_cons] at hnd
    by_cases hk : k = lba
    · subst hk
      rw [List.eraseP_cons_of_pos (by simp)]
      exact lookup_eq_none_of_not_mem hnd.1
    · rw [List.eraseP_cons_of_neg (by simpa using hk)]
      simp [List.lookup, beq_false_of_ne (fun h => hk h.symm), ih hnd.2]

theorem nodup_eraseP (m : List (Nat × Nat)) (p : Nat × Nat → Bool)
    (hnd : (m.map Prod.fst).Nodup) : ((m.eraseP p).map Prod.fst).Nodup :=
  hnd.sublist ((List.eraseP_sublist m).map Prod.fst)

theorem getD_set_ne (l : List Int) (i j : Nat) (v : Int) (h : i ≠ j) :
    (l.set i v).getD j (-1) = l.getD j (-1) := by
  rw [List.getD_eq_getElem?_getD, List.getElem?_set_ne h, ← List.getD_eq_getElem?_getD]

theorem trimLogSide_facts (cfg : Cfg) (st : BastState) (lba off : Nat)
    (hoff : off < cfg.bs)
    (hlog : ∀ id, List.lookup lba st.log_map = some id →
      (st.heap id).pages.length = cfg.bs)
    (hnd : (st.log_map.map Prod.fst).Nodup) :
    (trimLogSide cfg st lba off).data_list = st.data_list ∧
    (((trimLogSide cfg st lba off).log_map.map Prod.fst).Nodup) ∧
    (List.lookup lba (trimLogSide cfg st lba off).log_map = none ∨
      List.lookup lba (trimLogSide cfg st lba off).log_map =
        List.lookup lba st.log_map) ∧
    (∀ id, List.lookup lba (trimLogSide cfg st lba off).log_map = some id →
      List.lookup lba st.log_map = some id ∧
      ((trimLogSide cfg st lba off).heap id).address = (st.heap id).address ∧
      ((trimLogSide cfg st lba off).heap id).pages.length =
        (st.heap id).pages.length ∧
      ((trimLogSide cfg st lba off).heap id).pages.getD off (-1) = -1 ∧
      (∀ o, o ≠ off → ((trimLogSide cfg st lba off).heap id).pages.getD o (-1) =
        (st.heap id).pages.getD o (-1))) ∧
    (∀ x, (trimLogSide cfg st lba off).pageState x = st.pageState x ∨
      (trimLogSide cfg st lba off).pageState x = .INVALID ∨
      (∃ id0, List.lookup lba st.log_map = some id0 ∧
        ∃ o, o < cfg.bs ∧ x = (st.heap id0).address + (o : Int))) := by
  cases hk : List.lookup lba st.log_map with
  | none =>
    have he : trimLogSide cfg st lba off = st := by simp only [trimLogSide, hk]
    rw [he]
    refine ⟨rfl, hnd, Or.inl hk, ?_, fun x => Or.inl rfl⟩
    intro id h
    rw [hk] at h
    simp at h
  | some id0 =>
    have hlen0 : (st.heap id0).pages.length = cfg.bs := hlog id0 hk
    by_cases hs : (((st.heap id0).pages.getD off (-1)) != -1) = true
    · set ra := (st.heap id0).address + (st.heap id0).pages.getD off (-1) with hra
      set pb1 : LogPageBlock :=
        ⟨(st.heap id0).pages.set off (-1), (st.heap id0).address⟩ with hpb1
      set st2 : BastState :=
        { invalidate_page st ra with
            heap := updFn (invalidate_page st ra).heap id0 pb1 } with hst2
      have hmap2 : st2.log_map = st.log_map := rfl
      have hps2 : st2.pageState = updFnI st.pageState ra .INVALID := rfl
      have he : trimLogSide cfg st lba off =
          (if blockInactive cfg st2 (st.heap id0).address = true
           then erase_block cfg (dispose_logblock st2 lba) (st.heap id0).address
           else st2) := by
        simp only [trimLogSide, hk]
        rw [if_pos hs]
      rw [he]
      split
      · -- the log block went all-invalid: entry dropped, block erased
        refine ⟨rfl, ?_, Or.inl ?_, ?_, ?_⟩
        · show ((st2.log_map.eraseP (fun p => p.1 == lba)).map Prod.fst).Nodup
          rw [hmap2]
          exact nodup_eraseP _ _ hnd
        · show List.lookup lba (st2.log_map.eraseP (fun p => p.1 == lba)) = none
          rw [hmap2]
          exact lookup_eraseP_self hnd
        · intro id h
          rw [show (erase_block cfg (dispose_logblock st2 lba)
              (st.heap id0).address).log_map = st2.log_map.eraseP
              (fun p => p.1 == lba) from rfl, hmap2, lookup_eraseP_self hnd] at h
          simp at h
        · intro x
          by_cases hin : ((List.range cfg.bs).any
              (fun (o : Nat) => decide ((st.heap id0).address + (o : Int) = x))) = true
          · right; right
            rw [List.any_eq_true] at hin
            obtain ⟨o, ho, hx⟩ := hin
            rw [List.mem_range] at ho
            rw [decide_eq_true_eq] at hx
            exact ⟨id0, rfl, o, ho, hx.symm⟩
          · have hps : (erase_block cfg (dispose_logblock st2 lba)
                (st.heap id0).address).pageState x = st2.pageState x := by
              show blockStamp cfg.bs st2.pageState (st.heap id0).address .EMPTY x
                = st2.pageState x
              unfold blockStamp
              rw [if_neg (by simpa using hin)]
            rw [hps, hps2]
            by_cases hx : x = ra
            · right; left
              subst hx
              exact updFnI_self _ _ _
            · left
              exact updFnI_ne _ _ _ _ hx
      · -- some pages still live: slot cleared, entry kept
        refine ⟨rfl, ?_, Or.inr ?_, ?_, ?_⟩
        · show ((st2.log_map.map Prod.fst)).Nodup
          rw [hmap2]
          exact hnd
        · show List.lookup lba st2.log_map = some id0
          rw [hmap2]
          exact hk
        · intro id h
          rw [hmap2, hk] at h
          obtain rfl : id0 = id := by simpa using h
          have hheap : st2.heap id0 = pb1 := updFn_self _ _ _
          rw [hheap]
          refine ⟨rfl, rfl, by simp, ?_, ?_⟩
          · exact getD_set_self _ _ _ (by rw [hlen0]; exact hoff)
          · intro o ho
            exact getD_set_ne _ _ _ _ (fun hx => ho hx.symm)
        · intro x
          rw [hps2]
          by_cases hx : x = ra
          · right; left
            subst hx
            exact updFnI_self _ _ _
          · left
            exact updFnI_ne _ _ _ _ hx
    · have hs2 : (st.heap id0).pages.getD off (-1) = -1 := by simpa using hs
      have he : trimLogSide cfg st lba off = st := by
        simp only [trimLogSide, hk]
        rw [if_neg hs]
      rw [he]
      refine ⟨rfl, hnd, Or.inr hk, ?_, fun x => Or.inl rfl⟩
      intro id h
      rw [hk] at h
      obtain rfl : id0 = id := by simpa using h
      exact ⟨rfl, rfl, rfl, hs2, fun o _ => rfl⟩

theorem trimDataSide_facts (cfg : Cfg) (s : BastState) (lba off : Nat)
    (hoff : off < cfg.bs) :
    (trimDataSide cfg s lba off).log_map = s.log_map ∧
    (trimDataSide cfg s lba off).heap = s.heap ∧
    ((trimDataSide cfg s lba off).data_list lba = s.data_list lba ∨
      (trimDataSide cfg s lba off).data_list lba = -1) ∧
    (s.data_list lba ≠ -1 →
      (trimDataSide cfg s lba off).data_list lba = s.data_list lba →
      (trimDataSide cfg s lba off).pageState (s.data_list lba + (off : Int)) = .INVALID) ∧
    (∀ o, o < cfg.bs → s.data_list lba ≠ -1 →
      (trimDataSide cfg s lba off).data_list lba = s.data_list lba →
      s.pageState (s.data_list lba + (o : Int)) = .INVALID →
      (trimDataSide cfg s lba off).pageState (s.data_list lba + (o : Int)) = .INVALID) ∧
    (s.data_list lba ≠ -1 →
      (∀ o, o < cfg.bs → o ≠ off → s.pageState (s.data_list lba + (o : Int)) = .INVALID) →
      (trimDataSide cfg s lba off).data_list lba = -1) := by
  by_cases hd : (s.data_list lba != -1) = true
  · set d := s.data_list lba with hdd
    set st1 := invalidate_page s (d + (off : Int)) with hst1
    have hps1 : st1.pageState = updFnI s.pageState (d + (off : Int)) .INVALID := rfl
    have he : trimDataSide cfg s lba off =
        (if blockInactive cfg st1 d = true
         then erase_block cfg { st1 with data_list := updFn st1.data_list lba (-1) } d
         else st1) := by
      simp only [trimDataSide]
      rw [if_pos hd]
    rw [he]
    split
    · -- data block went all-invalid: unmapped and erased
      have hdl : (erase_block cfg { st1 with
          data_list := updFn st1.data_list lba (-1) } d).data_list lba = -1 := by
        show updFn st1.data_list lba (-1) lba = -1
        exact updFn_self _ _ _
      have hne : s.data_list lba ≠ -1 := by simpa using hd
      refine ⟨rfl, rfl, Or.inr hdl, ?_, ?_, fun _ _ => hdl⟩
      · intro h1 h2
        rw [hdl] at h2
        exact absurd h2.symm h1
      · intro o ho h1 h2 hinv
        rw [hdl] at h2
        exact absurd h2.symm h1
    · -- still-live pages remain: only this offset invalidated
      rename_i hb
      refine ⟨rfl, rfl, Or.inl rfl, ?_, ?_, ?_⟩
      · intro h1 h2
        rw [hps1]
        exact updFnI_self _ _ _
      · intro o ho h1 h2 hinv
        rw [hps1]
        by_cases hx : (d + (o : Int)) = (d + (off : Int))
        · rw [hx]
          exact updFnI_self _ _ _
        · rw [updFnI_ne _ _ _ _ hx]
          exact hinv
      · intro h1 hall
        exfalso
        apply hb
        unfold blockInactive
        rw [List.all_eq_true]
        intro o homem
        rw [List.mem_range] at homem
        show (st1.pageState (d + (o : Int)) == PageState.INVALID) = true
        have hval : st1.pageState (d + (o : Int)) = .INVALID := by
          rw [hps1]
          by_cases hx : o = off
          · subst hx
            exact updFnI_self _ _ _
          · have hxi : (d + (o : Int)) ≠ (d + (off : Int)) := by
              intro hcon
              apply hx
              omega
            rw [updFnI_ne _ _ _ _ hxi]
            exact hall o homem hx
        rw [hval]
        rfl
  · have hdm : s.data_list lba = -1 := by simpa using hd
    have he : trimDataSide cfg s lba off = s := by
      simp only [trimDataSide]
      rw [if_neg hd]
    rw [he]
    exact ⟨rfl, rfl, Or.inl rfl, fun h1 _ => absurd hdm h1,
      fun o ho h1 _ _ => absurd hdm h1, fun h1 _ => absurd hdm h1⟩

/-- Invariant carried through a sequence of trims of logical block `lba`:
`S` is the set of page offsets already trimmed, `d0` the initial BlockMap
base, `oid` the initial log entry (heap id and physical base). -/
def TrimCleared (cfg : Cfg) (lba : Nat) (d0 : Int) (oid : Option (Nat × Int))
    (S : List Nat) (st : BastState) : Prop :=
  (st.data_list lba = d0 ∨ st.data_list lba = -1) ∧
  (st.data_list lba = d0 → d0 ≠ -1 → ∀ o ∈ S, o < cfg.bs →
    st.pageState (d0 + (o : Int)) = .INVALID) ∧
  ((∀ o, o < cfg.bs → o ∈ S) → st.data_list lba = -1) ∧
  (match oid with
   | none => List.lookup lba st.log_map = none
   | some (id0, b0) =>
     List.lookup lba st.log_map = none ∨
     (List.lookup lba st.log_map = some id0 ∧ (st.heap id0).address = b0 ∧
      (st.heap id0).pages.length = cfg.bs)) ∧
  (∀ o ∈ S, ∀ id, List.lookup lba st.log_map = some id →
    (st.heap id).pages.getD o (-1) = -1) ∧
  (st.log_map.map Prod.fst).Nodup

theorem trim_cleared_step (cfg : Cfg) (lba : Nat) (d0 : Int) (oid : Option (Nat × Int))
    (S : List Nat) (st : BastState) (a : Nat)
    (hbs : 0 < cfg.bs)
    (hdisj : ∀ id0 b0, oid = some (id0, b0) → d0 ≠ -1 →
      ∀ o, o < cfg.bs → ∀ o2, o2 < cfg.bs → b0 + (o : Int) ≠ d0 + (o2 : Int))
    (ha : a >>> cfg.shift = lba)
    (hinv : TrimCleared cfg lba d0 oid S st) :
    TrimCleared cfg lba d0 oid ((a % cfg.bs) :: S) (trim cfg st a) := by
  obtain ⟨hdEv, hdInv, hcov, hlogEv, hmiss, hnd⟩ := hinv
  set off := a % cfg.bs with hoff0
  have hoff : off < cfg.bs := Nat.mod_lt _ hbs
  set stc : BastState := { st with numMemoryRead := st.numMemoryRead + 1 } with hstc
  have hlogc : ∀ id, List.lookup lba stc.log_map = some id →
      (stc.heap id).pages.length = cfg.bs := by
    intro id h
    have h' : List.lookup lba st.log_map = some id := h
    show (st.heap id).pages.length = cfg.bs
    cases oid with
    | none =>
      rw [hlogEv] at h'
      simp at h'
    | some p =>
      obtain ⟨id0, b0⟩ := p
      rcases hlogEv with hnone | ⟨hsome, haddr, hlen⟩
      · rw [hnone] at h'
        simp at h'
      · rw [hsome] at h'
        obtain rfl : id0 = id := by simpa using h'
        exact hlen
  obtain ⟨L1, L2, L3, L4, L5⟩ := trimLogSide_facts cfg stc lba off hoff hlogc hnd
  obtain ⟨D1, D2, D3, D5, D6, D7⟩ :=
    trimDataSide_facts cfg (trimLogSide cfg stc lba off) lba off hoff
  set sL := trimLogSide cfg stc lba off with hsL
  set sD := trimDataSide cfg sL lba off with hsD
  have hT_dl : (trim cfg st a).data_list = sD.data_list := by
    simp only [trim, ha]
  have hT_lm : (trim cfg st a).log_map = sD.log_map := by
    simp only [trim, ha]
  have hT_heap : (trim cfg st a).heap = sD.heap := by
    simp only [trim, ha]
  have hT_ps : (trim cfg st a).pageState = sD.pageState := by
    simp only [trim, ha]
  have hsL_dl : sL.data_list lba = st.data_list lba := congrFun L1 lba
  -- the page at `d0 + o` stays INVALID through the log side
  have hLinv : ∀ o, o < cfg.bs → d0 ≠ -1 → st.pageState (d0 + (o : Int)) = .INVALID →
      sL.pageState (d0 + (o : Int)) = .INVALID := by
    intro o ho hne hinv0
    rcases L5 (d0 + (o : Int)) with heq | hI | ⟨id1, hlk, o2, ho2, hx⟩
    · rw [heq]
      exact hinv0
    · exact hI
    · exfalso
      have hlk' : List.lookup lba st.log_map = some id1 := hlk
      cases oid with
      | none =>
        rw [hlogEv] at hlk'
        simp at hlk'
      | some p =>
        obtain ⟨id0, b0⟩ := p
        rcases hlogEv with hnone | ⟨hsome, haddr, hlen⟩
        · rw [hnone] at hlk'
          simp at hlk'
        · rw [hsome] at hlk'
          obtain rfl : id0 = id1 := by simpa using hlk'
          have hx' : d0 + (o : Int) = b0 + (o2 : Int) := by
            rw [hx]
            show (st.heap id0).address + (o2 : Int) = b0 + (o2 : Int)
            rw [haddr]
          exact hdisj id0 b0 rfl hne o2 ho2 o ho hx'.symm
  refine ⟨?_, ?_, ?_, ?_, ?_, ?_⟩
  · -- the BlockMap entry is still the original one or unmapped
    rw [congrFun hT_dl lba]
    rcases D3 with h | h
    · rw [h, hsL_dl]
      exact hdEv
    · right
      exact h
  · -- every already-trimmed offset of the data block is INVALID
    intro hTd hne o hoS hob
    rw [congrFun hT_dl lba] at hTd
    have hsd_eq : sD.data_list lba = d0 := hTd
    have hsl_eq : sL.data_list lba = d0 := by
      rcases D3 with h | h
      · rw [← h]
        exact hsd_eq
      · rw [h] at hsd_eq
        exact absurd hsd_eq.symm hne
    have hst_eq : st.data_list lba = d0 := by
      rw [← hsL_dl]
      exact hsl_eq
    rw [congrFun hT_ps _]
    rcases List.mem_cons.mp hoS with rfl | hS
    · have h5 := D5 (by rw [hsl_eq]; exact hne) (by rw [hsd_eq, hsl_eq])
      rw [hsl_eq] at h5
      exact h5
    · have hst_inv : st.pageState (d0 + (o : Int)) = .INVALID :=
        hdInv hst_eq hne o hS hob
      have hsl_inv : sL.pageState (d0 + (o : Int)) = .INVALID :=
        hLinv o hob hne hst_inv
      have h6 := D6 o hob (by rw [hsl_eq]; exact hne) (by rw [hsd_eq, hsl_eq])
      rw [hsl_eq] at h6
      exact h6 hsl_inv
  · -- once every offset has been trimmed, the BlockMap entry is gone
    intro hcv
    rw [congrFun hT_dl lba]
    rcases D3 with h | h
    · rcases hdEv with hst | hst
      · by_cases hne : d0 = -1
        · rw [h, hsL_dl, hst, hne]
        · apply D7 (by rw [hsL_dl, hst]; exact hne)
          intro o ho hoff2
          have hoS2 : o ∈ S := by
            rcases List.mem_cons.mp (hcv o ho) with h2 | h2
            · exact absurd h2 hoff2
            · exact h2
          have hst_inv : st.pageState (d0 + (o : Int)) = .INVALID :=
            hdInv hst hne o hoS2 ho
          have := hLinv o ho hne hst_inv
          rw [hsL_dl, hst]
          exact this
      · rw [h, hsL_dl, hst]
    · rw [h]
  · -- the log entry, if still present, is the original block
    cases oid with
    | none =>
      show List.lookup lba (trim cfg st a).log_map = none
      rw [hT_lm, D1]
      rcases L3 with h | h
      · exact h
      · rw [h]
        exact hlogEv
    | some p =>
      obtain ⟨id0, b0⟩ := p
      rw [hT_lm, D1, hT_heap, D2]
      rcases L3 with h | h
      · left
        exact h
      · rcases hlogEv with hnone | ⟨hsome, haddr, hlen⟩
        · left
          rw [h]
          exact hnone
        · right
          have hlkL : List.lookup lba sL.log_map = some id0 := by
            rw [h]
            exact hsome
          obtain ⟨-, haddr2, hlen2, -, -⟩ := L4 id0 hlkL
          refine ⟨hlkL, ?_, ?_⟩
          · rw [haddr2]
            exact haddr
          · rw [hlen2]
            exact hlen
  · -- every trimmed offset's log slot is clear in a surviving entry
    intro o hoS id hlk
    rw [hT_lm, D1] at hlk
    rw [hT_heap, D2]
    obtain ⟨hlk0, -, -, hoffc, hpres⟩ := L4 id hlk
    rcases List.mem_cons.mp hoS with rfl | hS
    · exact hoffc
    · by_cases hx : o = off
      · subst hx
        exact hoffc
      · rw [hpres o hx]
        exact hmiss o hS id hlk0
  · rw [hT_lm, D1]
    exact L2

/-- Page offsets of a trim sequence, accumulated in fold order. -/
def offsAcc (cfg : Cfg) : List Nat → List Nat → List Nat
  | [], S => S
  | a :: t, S => offsAcc cfg t ((a % cfg.bs) :: S)

theorem mem_offsAcc_of_mem_base (cfg : Cfg) (L : List Nat) (S : List Nat) (o : Nat)
    (h : o ∈ S) : o ∈ offsAcc cfg L S := by
  induction L generalizing S with
  | nil => exact h
  | cons a t ih => exact ih _ (List.mem_cons_of_mem _ h)

theorem mem_offsAcc_of_mem (cfg : Cfg) (L : List Nat) (S : List Nat) (a : Nat)
    (h : a ∈ L) : (a % cfg.bs) ∈ offsAcc cfg L S := by
  induction L generalizing S with
  | nil => cases h
  | cons b t ih =>
    rcases List.mem_cons.mp h with rfl | h2
    · exact mem_offsAcc_of_mem_base cfg t _ _ (List.mem_cons_self _ _)
    · exact ih _ h2

theorem trim_cleared_fold (cfg : Cfg) (lba : Nat) (d0 : Int) (oid : Option (Nat × Int))
    (hbs : 0 < cfg.bs)
    (hdisj : ∀ id0 b0, oid = some (id0, b0) → d0 ≠ -1 →
      ∀ o, o < cfg.bs → ∀ o2, o2 < cfg.bs → b0 + (o : Int) ≠ d0 + (o2 : Int)) :
    ∀ (L S : List Nat) (st : BastState),
      (∀ a ∈ L, a >>> cfg.shift = lba) →
      TrimCleared cfg lba d0 oid S st →
      TrimCleared cfg lba d0 oid (offsAcc cfg L S) (L.foldl (trim cfg) st) := by
  intro L
  induction L with
  | nil => exact fun S st _ h => h
  | cons a t ih =>
    intro S st hL hinv
    exact ih _ _ (fun x hx => hL x (List.mem_cons_of_mem _ hx))
      (trim_cleared_step cfg lba d0 oid S st a hbs hdisj
        (hL a (List.mem_cons_self _ _)) hinv)

theorem read_sentinel (cfg : Cfg) (s : BastState) (a : Nat)
    (hdata : s.data_list (a >>> cfg.shift) = -1)
    (hmiss : ∀ id, List.lookup (a >>> cfg.shift) s.log_map = some id →
      (s.heap id).pages.getD (a % cfg.bs) (-1) = -1) :
    (read cfg s a).1 = 0 := by
  simp only [read]
  cases h : List.lookup (a >>> cfg.shift) s.log_map with
  | none => simp [h, hdata]
  | some id =>
    have hm := hmiss id h
    rw [List.getD_eq_getElem?_getD] at hm
    simp [h, hm, hdata]

/-- C8: any sequence of trims covering all page offsets of a logical block
unmaps its backing blocks — the BlockMap entry is reset to -1, any surviving
Log Map entry for the block has every slot cleared, and a subsequent read of
any of the block's logical addresses returns the unmapped sentinel; moreover
the log-side and data-side checks are independent: a single trim of an address
with both a set log slot and a data mapping clears the slot in any surviving
log entry and also either unmaps the data block or invalidates its page. -/
theorem trim_full_block_reclaims (cfg : Cfg) (st : BastState) (lba : Nat) (L : List Nat)
    (hbs : 0 < cfg.bs)
    (hnd : (st.log_map.map Prod.fst).Nodup)
    (hlog : ∀ id, List.lookup lba st.log_map = some id →
      (st.heap id).pages.length = cfg.bs)
    (hdisj : ∀ id, List.lookup lba st.log_map = some id → st.data_list lba ≠ -1 →
      ∀ o, o < cfg.bs → ∀ o2, o2 < cfg.bs →
        (st.heap id).address + (o : Int) ≠ st.data_list lba + (o2 : Int))
    (hL : ∀ a ∈ L, a >>> cfg.shift = lba)
    (hcov : ∀ o, o < cfg.bs → ∃ a ∈ L, a % cfg.bs = o) :
    (L.foldl (trim cfg) st).data_list lba = -1 ∧
    (∀ id, List.lookup lba (L.foldl (trim cfg) st).log_map = some id →
      ∀ o, o < cfg.bs → ((L.foldl (trim cfg) st).heap id).pages.getD o (-1) = -1) ∧
    (∀ a, a >>> cfg.shift = lba → (read cfg (L.foldl (trim cfg) st) a).1 = 0) ∧
    (∀ (s2 : BastState) (a2 id2 : Nat),
      List.lookup (a2 >>> cfg.shift) s2.log_map = some id2 →
      (s2.heap id2).pages.length = cfg.bs →
      (s2.heap id2).pages.getD (a2 % cfg.bs) (-1) ≠ -1 →
      (s2.log_map.map Prod.fst).Nodup →
      s2.data_list (a2 >>> cfg.shift) ≠ -1 →
      (∀ id3, List.lookup (a2 >>> cfg.shift) (trim cfg s2 a2).log_map = some id3 →
        ((trim cfg s2 a2).heap id3).pages.getD (a2 % cfg.bs) (-1) = -1) ∧
      ((trim cfg s2 a2).data_list (a2 >>> cfg.shift) = -1 ∨
       (trim cfg s2 a2).pageState
         (s2.data_list (a2 >>> cfg.shift) + ((a2 % cfg.bs : Nat) : Int)) = .INVALID)) := by
  set d0 := st.data_list lba with hd0
  set oid : Option (Nat × Int) := (List.lookup lba st.log_map).map
    (fun id => (id, (st.heap id).address)) with hoid
  have hdisj2 : ∀ id0 b0, oid = some (id0, b0) → d0 ≠ -1 →
      ∀ o, o < cfg.bs → ∀ o2, o2 < cfg.bs → b0 + (o : Int) ≠ d0 + (o2 : Int) := by
    intro id0 b0 h hne o ho o2 ho2
    rw [hoid] at h
    cases hlk : List.lookup lba st.log_map with
    | none =>
      rw [hlk] at h
      simp at h
    | some id1 =>
      rw [hlk] at h
      injection h with h2
      obtain ⟨rfl, rfl⟩ : id1 = id0 ∧ (st.heap id1).address = b0 :=
        ⟨congrArg Prod.fst h2, congrArg Prod.snd h2⟩
      exact hdisj id1 hlk hne o ho o2 ho2
  have hinit : TrimCleared cfg lba d0 oid [] st := by
    refine ⟨Or.inl rfl, ?_, ?_, ?_, ?_, hnd⟩
    · intro _ _ o ho
      exact absurd ho (List.not_mem_nil o)
    · intro h
      exact absurd (h 0 hbs) (List.not_mem_nil 0)
    · rw [hoid]
      cases hlk : List.lookup lba st.log_map with
      | none => exact rfl
      | some id1 => exact Or.inr ⟨rfl, rfl, hlog id1 hlk⟩
    · intro o ho
      exact absurd ho (List.not_mem_nil o)
  obtain ⟨fEv, fInv, fCov, fLog, fMiss, fNd⟩ :=
    trim_cleared_fold cfg lba d0 oid hbs hdisj2 L [] st hL hinit
  have hcovered : ∀ o, o < cfg.bs → o ∈ offsAcc cfg L [] := by
    intro o ho
    obtain ⟨a, haL, hao⟩ := hcov o ho
    rw [← hao]
    exact mem_offsAcc_of_mem cfg L [] a haL
  have hdata : (L.foldl (trim cfg) st).data_list lba = -1 := fCov hcovered
  refine ⟨hdata, ?_, ?_, ?_⟩
  · intro id hlk o ho
    exact fMiss o (hcovered o ho) id hlk
  · intro a ha2
    apply read_sentinel
    · rw [ha2]
      exact hdata
    · intro id hlk
      rw [ha2] at hlk
      exact fMiss (a % cfg.bs) (hcovered _ (Nat.mod_lt _ hbs)) id hlk
  · intro s2 a2 id2 hlk2 hlen2 hset2 hnd2 hdne2
    have hoffb : a2 % cfg.bs < cfg.bs := Nat.mod_lt _ hbs
    set sc : BastState := { s2 with numMemoryRead := s2.numMemoryRead + 1 } with hsc
    have hlogc2 : ∀ id, List.lookup (a2 >>> cfg.shift) sc.log_map = some id →
        (sc.heap id).pages.length = cfg.bs := by
      intro id h
      have h2 : List.lookup (a2 >>> cfg.shift) s2.log_map = some id := h
      rw [hlk2] at h2
      obtain rfl : id2 = id := by simpa using h2
      exact hlen2
    obtain ⟨L1, L2, L3, L4, L5⟩ :=
      trimLogSide_facts cfg sc (a2 >>> cfg.shift) (a2 % cfg.bs) hoffb hlogc2 hnd2
    obtain ⟨D1, D2, D3, D5, D6, D7⟩ :=
      trimDataSide_facts cfg (trimLogSide cfg sc (a2 >>> cfg.shift) (a2 % cfg.bs))
        (a2 >>> cfg.shift) (a2 % cfg.bs) hoffb
    set sL := trimLogSide cfg sc (a2 >>> cfg.shift) (a2 % cfg.bs) with hsL2
    set sD := trimDataSide cfg sL (a2 >>> cfg.shift) (a2 % cfg.bs) with hsD2
    have hT_lm : (trim cfg s2 a2).log_map = sD.log_map := rfl
    have hT_heap : (trim cfg s2 a2).heap = sD.heap := rfl
    have hT_dl : (trim cfg s2 a2).data_list = sD.data_list := rfl
    have hT_ps : (trim cfg s2 a2).pageState = sD.pageState := rfl
    have hsl_dl : sL.data_list (a2 >>> cfg.shift) = s2.data_list (a2 >>> cfg.shift) :=
      congrFun L1 _
    refine ⟨?_, ?_⟩
    · intro id3 h3
      rw [hT_lm, D1] at h3
      obtain ⟨-, -, -, hslot, -⟩ := L4 id3 h3
      rw [hT_heap, D2]
      exact hslot
    · rcases D3 with hkeep | hgone
      · have h5 := D5 (by rw [hsl_dl]; exact hdne2) hkeep
        rw [hsl_dl] at h5
        rw [hT_ps]
        exact Or.inr h5
      · rw [hT_dl]
        exact Or.inl hgone

theorem trim_full_block_reclaims_witness :
    (List.foldl (trim cfg2) stTrim [0, 1]).data_list 0 = -1 ∧
    (read cfg2 (List.foldl (trim cfg2) stTrim [0, 1]) 0).1 = 0 ∧
    (read cfg2 (List.foldl (trim cfg2) stTrim [0, 1]) 1).1 = 0 ∧
    ((trim cfg2 stTrim 0).data_list 0 = -1 ∨
     (trim cfg2 stTrim 0).pageState 4 = .INVALID) := by
  obtain ⟨h1, -, h3, h4⟩ :=
    trim_full_block_reclaims cfg2 stTrim 0 [0, 1] (by decide) (by decide)
      (by
        intro id h
        rw [show List.lookup (0 : Nat) stTrim.log_map = some (0 : Nat) from by decide] at h
        injection h with hh
        subst hh
        decide)
      (by
        intro id h hne o ho o2 ho2
        rw [show List.lookup (0 : Nat) stTrim.log_map = some (0 : Nat) from by decide] at h
        injection h with hh
        subst hh
        have ho' : o < 2 := ho
        have ho2' : o2 < 2 := ho2
        show (2 : Int) + (o : Int) ≠ 4 + (o2 : Int)
        omega)
      (by decide)
      (by
        intro o ho
        have ho' : o < 2 := ho
        interval_cases o <;> decide)
  exact ⟨h1, h3 0 (by decide), h3 1 (by decide),
    (h4 stTrim 0 0 (by decide) (by decide) (by decide) (by decide) (by decide)).2⟩

end Bast
